import Mathlib

/-!
# Verification of the reactivity core of `my-vue2-learn`

Shallow embedding, in Lean 4, of the reactivity engine, scheduler and
virtual-dom child reconciliation of the repository, together with proofs
of the frozen specification claims.

Embedded source files:
* `src/core/observer/dep.ts` (`Dep.addSub`, `Dep.removeSub`, `Dep.notify`)
* `src/core/observer/watcher.ts` (`Watcher.get`, `addDep`, `cleanupDeps`,
  `teardown`)
* `src/core/observer/scheduler.ts` (`queueWatcher`, `sortCompareFn`,
  `flushSchedulerQueue` with the `MAX_UPDATE_COUNT` circular-update guard)
* `src/core/observer/index.ts` (`defineReactive`'s `reactiveSetter`)
* `src/core/observer/array.ts` (the seven intercepted array mutators)
* `src/core/vdom/create-element.ts` (`sameVnode`, `sameInputType`,
  `updateChildren`, `findIdxInOld`)

JavaScript machine integers do not occur in these routines (ids are small
monotone counters), so ids are modelled as `Nat` and JS values by an
explicit inductive type.
-/

namespace Vue2

/-! ## JavaScript value model

A small universe of JavaScript values, sufficient for the reactive-field
setter.  Object values carry an identity tag: `===` on objects is identity
comparison, which structural equality of the tag models faithfully as long
as each distinct object receives a distinct tag.  `nan` is a separate
constructor; note that Lean equality on `JVal` therefore treats `nan` as
equal to itself. -/
inductive JVal : Type where
  | num (n : Int)
  | nan
  | str (s : String)
  | bool (b : Bool)
  | undef
  | obj (id : Nat)
  | ref (id : Nat)
  deriving DecidableEq, Repr

/-- `isRef` (from the v3 compatibility layer): whether a value is a ref
object.  Refs, like other objects, are compared by identity and carry an
identity tag. -/
def isRef : JVal → Bool
  | .ref _ => true
  | _ => false

/-- Modelled from the spec: the value comparator `hasChanged` lives in
`shared/util.ts`, which is not part of the sources; the spec describes it
as "identity equality, with NaN considered equal to itself".  On the `JVal`
universe that comparator is exactly decidable disequality (the `nan`
constructor is equal to itself). -/
def hasChanged (x y : JVal) : Bool :=
  x ≠ y

/-! ## Dep subscriber slot primitives (`src/core/observer/dep.ts`)

`Dep` keeps `subs : Array<DepTarget | null>`: nullable subscriber slots,
modelled as a list of optional watcher ids. -/

/-- Subscriber slots of one `Dep` (entries are watcher ids, `none` for a
nulled slot). -/
abbrev Subs := List (Option Nat)

/-- `Dep.removeSub` (dep.ts): `this.subs[this.subs.indexOf(sub)] = null`
nulls the first slot holding the subscriber.  When the subscriber is
absent, `indexOf` yields `-1` and the assignment creates an out-of-range
property, leaving the slots unchanged — as does this function. -/
def removeSubSlot (wid : Nat) : Subs → Subs
  | [] => []
  | s :: rest =>
    if s = some wid then none :: rest else s :: removeSubSlot wid rest

/-- Number of non-null slots a given watcher occupies in a subscriber
list. -/
def occCount (wid : Nat) (subs : Subs) : Nat :=
  subs.countP (· = some wid)

/-- `Dep.notify` (dep.ts): `const subs = this.subs.filter(s => s)`, then
`sub.update()` on each survivor — the ids receiving `update()`, in
order. -/
def notifyList (subs : Subs) : List Nat :=
  subs.filterMap id

/-! ## Reactive field setter (`defineReactive` in `src/core/observer/index.ts`)

`defineReactive` installs an accessor pair over a closed-over `dep`,
a possibly pre-existing user `getter`/`setter` pair, a `shallow` flag,
the current value `val` and child observer `childOb`.  The setter is
`reactiveSetter` (lines 222–265):

```ts
set: function reactiveSetter(newVal) {
  const value = getter ? getter.call(obj) : val
  if (!hasChanged(value, newVal)) { return }
  if (__DEV__ && customSetter) { customSetter() }
  if (setter) {
    setter.call(obj, newVal)
  } else if (getter) {
    // #7981: for accessor properties without setter
    return
  } else if (!shallow && isRef(value) && !isRef(newVal)) {
    value.value = newVal
    return
  } else {
    val = newVal
  }
  childOb = shallow ? newVal && newVal.__ob__ : observe(newVal, false, mock)
  dep.notify()
}
```

A pre-existing getter is modelled by the value it currently returns
(`getterVal`, `none` when the property had no getter); a pre-existing
setter is external code, so only the fact that it was invoked is
recorded.  Dep subscriber lists are `Array<DepTarget | null>` (`dep.ts`):
nullable slots, modelled as `List (Option Nat)` of watcher ids. -/

/-- State and configuration of one reactive field: the closed-over
current value `val`, the pre-existing getter's current result (if a
getter existed), whether a pre-existing setter existed, the `shallow`
flag `defineReactive` was called with, and the closed-over `dep`'s
subscriber list (nullable slots, as in `Dep.subs`). -/
structure RField where
  val : JVal
  getterVal : Option JVal
  hasSetter : Bool
  shallow : Bool
  depSubs : List (Option Nat)
  deriving DecidableEq, Repr

/-- Observable effects of one `reactiveSetter` invocation. -/
structure SetEffects where
  /-- Number of `dep.notify()` calls performed. -/
  notifyCount : Nat
  /-- Whether `observe(newVal, ...)` was invoked (re-observation; in
  shallow mode the childOb update reads `newVal.__ob__` instead). -/
  observeCalled : Bool
  /-- Whether the pre-existing setter was invoked with the new value. -/
  setterCalled : Bool
  /-- The value written through to the ref (`value.value = newVal`), when
  the ref branch was taken. -/
  refWrite : Option JVal
  /-- Watcher ids whose `update()` was invoked, in order: `Dep.notify`
  filters out null slots and calls `update()` on each survivor. -/
  updated : List Nat
  deriving DecidableEq, Repr

/-- The `reactiveSetter` of `defineReactive` (all branches).  Returns the
post-state and the observable effects. -/
def reactiveSetter (f : RField) (newVal : JVal) : RField × SetEffects :=
  let value := f.getterVal.getD f.val
  if !hasChanged value newVal then
    (f, ⟨0, false, false, none, []⟩)
  else if f.hasSetter then
    (f, ⟨1, !f.shallow, true, none, notifyList f.depSubs⟩)
  else if f.getterVal.isSome then
    (f, ⟨0, false, false, none, []⟩)
  else if !f.shallow && isRef value && !isRef newVal then
    (f, ⟨0, false, false, some newVal, []⟩)
  else
    ({ f with val := newVal },
      ⟨1, !f.shallow, false, none, notifyList f.depSubs⟩)

/-! ## Dep / Watcher dependency bookkeeping

`Dep` (dep.ts) keeps `subs : Array<DepTarget | null>`; `Watcher`
(watcher.ts) keeps the four dependency collections `depIds`, `newDepIds`
(id sets) and `deps`, `newDeps` (Dep lists) plus the `active` flag.  Deps
are identified by their unique `id`, watchers by theirs; the system state
maps every watcher id to its collections and every dep id to its
subscriber slot list. -/

/-- The dependency collections of one `Watcher` (watcher.ts). -/
structure WatcherDeps where
  depIds : Finset Nat
  newDepIds : Finset Nat
  deps : List Nat
  newDeps : List Nat
  active : Bool
  deriving DecidableEq

/-- Joint state of all watchers' collections and all deps' subscriber
lists, indexed by id. -/
structure DepSys where
  watcher : Nat → WatcherDeps
  subs : Nat → Subs

/-- The watcher-side record update of `Watcher.addDep`:
`this.newDepIds.add(id); this.newDeps.push(dep)`. -/
def addDepW (w : WatcherDeps) (d : Nat) : WatcherDeps :=
  { w with newDepIds := insert d w.newDepIds, newDeps := w.newDeps ++ [d] }

/-- `Watcher.addDep` (watcher.ts lines 197–214), invoked by
`Dep.prototype.depend` when the dep with id `d` is read while this
watcher is `Dep.target`: skip if `d` is already in `newDepIds`; record it
in the new sets; call `dep.addSub(this)` — an unconditional push of a
subscriber slot — only when `d` is not in `depIds` either. -/
def addDep (wid : Nat) (s : DepSys) (d : Nat) : DepSys :=
  let w := s.watcher wid
  if d ∈ w.newDepIds then s
  else if d ∈ w.depIds then
    { s with watcher := Function.update s.watcher wid (addDepW w d) }
  else
    { watcher := Function.update s.watcher wid (addDepW w d),
      subs := Function.update s.subs d (s.subs d ++ [some wid]) }

/-- The subscriber-list effect of `Watcher.cleanupDeps` (lines 218–235):
`while (i--)` walks `deps` from the last entry to the first, calling
`dep.removeSub(this)` on every dep whose id is not in `newDepIds`. -/
def cleanupSubs (wid : Nat) (deps : List Nat) (newDepIds : Finset Nat)
    (subs : Nat → Subs) : Nat → Subs :=
  deps.foldr
    (fun d acc =>
      if d ∈ newDepIds then acc
      else Function.update acc d (removeSubSlot wid (acc d)))
    subs

/-- `Watcher.cleanupDeps`: after the removal walk, the set/list pairs are
swapped and the now-new sides cleared, so the watcher ends with
`depIds := newDepIds`, `deps := newDeps`, and empty new sides. -/
def cleanupDeps (wid : Nat) (s : DepSys) : DepSys :=
  let w := s.watcher wid
  { watcher := Function.update s.watcher wid
      { w with depIds := w.newDepIds, newDepIds := ∅,
               deps := w.newDeps, newDeps := [] },
    subs := cleanupSubs wid w.deps w.newDepIds s.subs }

/-- `Watcher.get` (lines 153–191): pushes itself as `Dep.target`, runs the
getter — whose reactive reads call `dep.depend()`, hence `addDep`, in read
order `reads` — pops the target and runs `cleanupDeps`. -/
def watcherGet (wid : Nat) (reads : List Nat) (s : DepSys) : DepSys :=
  cleanupDeps wid (reads.foldl (addDep wid) s)

/-- `Watcher.teardown`: when still active, walks `deps` from last to
first removing this watcher from each dep's subscribers, then clears
`active`.  The removal walk is the `cleanupDeps` walk with no
`newDepIds` guard, i.e. `cleanupSubs` at the empty id set. -/
def watcherTeardown (wid : Nat) (s : DepSys) : DepSys :=
  let w := s.watcher wid
  if w.active then
    { watcher := Function.update s.watcher wid { w with active := false },
      subs := cleanupSubs wid w.deps ∅ s.subs }
  else s

/-- The operations of the watcher/dep state machine: an evaluation pass
(`Watcher.get`, reached from `run`, `evaluate` or the constructor) reading
a given list of dep ids, or a `teardown`. -/
inductive DepOp : Type where
  | run (wid : Nat) (reads : List Nat)
  | teardown (wid : Nat)
  deriving DecidableEq, Repr

def applyOp (s : DepSys) : DepOp → DepSys
  | .run wid reads => watcherGet wid reads s
  | .teardown wid => watcherTeardown wid s

def applyOps (s : DepSys) (ops : List DepOp) : DepSys :=
  ops.foldl applyOp s

/-- Initial system: freshly constructed watchers (empty collections,
active) and deps with no subscribers. -/
def initSys : DepSys :=
  { watcher := fun _ => ⟨∅, ∅, [], [], true⟩, subs := fun _ => [] }

/-- Well-formedness of one watcher between evaluation passes: the new
sides are empty, `deps` lists each subscribed dep exactly once and
matches `depIds`, and the watcher occupies exactly one subscriber slot of
each dep it depends on and none elsewhere. -/
def CleanWatcher (s : DepSys) (wid : Nat) : Prop :=
  (s.watcher wid).newDepIds = ∅ ∧
  (s.watcher wid).newDeps = [] ∧
  (s.watcher wid).deps.Nodup ∧
  (s.watcher wid).deps.toFinset = (s.watcher wid).depIds ∧
  ∀ d, occCount wid (s.subs d) =
    if d ∈ (s.watcher wid).depIds then 1 else 0

/-! ### Slot-counting lemmas -/

theorem occCount_append_self (wid : Nat) (l : Subs) :
    occCount wid (l ++ [some wid]) = occCount wid l + 1 := by
  simp [occCount, List.countP_append, List.countP_cons]

theorem occCount_append_ne {wid wid' : Nat} (h : wid' ≠ wid) (l : Subs) :
    occCount wid' (l ++ [some wid]) = occCount wid' l := by
  simp [occCount, List.countP_append, List.countP_cons, h.symm]

theorem occCount_removeSubSlot_self (wid : Nat) (l : Subs) :
    occCount wid (removeSubSlot wid l) = occCount wid l - 1 := by
  induction l with
  | nil => simp [removeSubSlot, occCount]
  | cons s rest ih =>
    by_cases hs : s = some wid
    · simp [removeSubSlot, hs, occCount, List.countP_cons]
    · simp only [removeSubSlot, if_neg hs, occCount, List.countP_cons] at *
      simp only [decide_eq_true_eq, hs, if_false, ih]
      omega

theorem occCount_removeSubSlot_ne {wid wid' : Nat} (h : wid' ≠ wid) (l : Subs) :
    occCount wid' (removeSubSlot wid l) = occCount wid' l := by
  induction l with
  | nil => rfl
  | cons s rest ih =>
    by_cases hs : s = some wid
    · subst hs
      simp [removeSubSlot, occCount, List.countP_cons, h.symm]
    · simp [removeSubSlot, if_neg hs, occCount, List.countP_cons] at *
      omega

theorem count_notifyList (wid : Nat) (l : Subs) :
    (notifyList l).count wid = occCount wid l := by
  induction l with
  | nil => rfl
  | cons s rest ih =>
    cases s with
    | none => simpa [notifyList, occCount, List.countP_cons] using ih
    | some x =>
      by_cases hx : x = wid
      · subst hx
        simp [notifyList, occCount, List.countP_cons, List.count_cons] at *
        omega
      · simp [notifyList, occCount, List.countP_cons, List.count_cons, hx,
          Ne.symm hx] at *
        exact ih

/-! ### Effect of one `addDep` and of the read fold -/

theorem addDep_step (wid d : Nat) (s : DepSys)
    (hnd : (s.watcher wid).newDeps.Nodup)
    (hts : (s.watcher wid).newDeps.toFinset = (s.watcher wid).newDepIds) :
    ((addDep wid s d).watcher wid).depIds = (s.watcher wid).depIds ∧
    ((addDep wid s d).watcher wid).deps = (s.watcher wid).deps ∧
    ((addDep wid s d).watcher wid).active = (s.watcher wid).active ∧
    ((addDep wid s d).watcher wid).newDepIds
      = insert d (s.watcher wid).newDepIds ∧
    ((addDep wid s d).watcher wid).newDeps.Nodup ∧
    ((addDep wid s d).watcher wid).newDeps.toFinset
      = insert d (s.watcher wid).newDepIds ∧
    (∀ d', occCount wid ((addDep wid s d).subs d') =
      if d' = d ∧ d ∉ (s.watcher wid).newDepIds ∧ d ∉ (s.watcher wid).depIds
      then occCount wid (s.subs d') + 1 else occCount wid (s.subs d')) ∧
    (∀ wid', wid' ≠ wid → ((addDep wid s d).watcher wid') = s.watcher wid' ∧
      ∀ d', occCount wid' ((addDep wid s d).subs d')
        = occCount wid' (s.subs d')) := by
  by_cases hN : d ∈ (s.watcher wid).newDepIds
  · have hs : addDep wid s d = s := by simp [addDep, hN]
    rw [hs]
    refine ⟨rfl, rfl, rfl, (Finset.insert_eq_self.mpr hN).symm, hnd, ?_, ?_, ?_⟩
    · rw [hts, Finset.insert_eq_self.mpr hN]
    · intro d'
      simp [hN]
    · exact fun _ _ => ⟨rfl, fun _ => rfl⟩
  · have hdn : d ∉ (s.watcher wid).newDeps := by
      intro hmem
      exact hN (hts ▸ List.mem_toFinset.mpr hmem)
    by_cases hD : d ∈ (s.watcher wid).depIds
    · have hs : addDep wid s d =
          { s with watcher :=
              Function.update s.watcher wid (addDepW (s.watcher wid) d) } := by
        simp [addDep, hN, hD]
      rw [hs]
      refine ⟨by simp [addDepW], by simp [addDepW], by simp [addDepW],
        by simp [addDepW], ?_, ?_, ?_, ?_⟩
      · simpa [addDepW, List.nodup_append] using ⟨hnd, hdn⟩
      · simp [addDepW, List.toFinset_append, hts, Finset.union_comm,
          ← Finset.insert_eq]
      · intro d'
        simp [hD]
      · intro wid' hw
        exact ⟨by simp [Function.update_noteq hw], fun _ => rfl⟩
    · have hs : addDep wid s d =
          { watcher := Function.update s.watcher wid (addDepW (s.watcher wid) d),
            subs := Function.update s.subs d (s.subs d ++ [some wid]) } := by
        simp [addDep, hN, hD]
      rw [hs]
      refine ⟨by simp [addDepW], by simp [addDepW], by simp [addDepW],
        by simp [addDepW], ?_, ?_, ?_, ?_⟩
      · simpa [addDepW, List.nodup_append] using ⟨hnd, hdn⟩
      · simp [addDepW, List.toFinset_append, hts, Finset.union_comm,
          ← Finset.insert_eq]
      · intro d'
        by_cases hd' : d' = d
        · subst hd'
          simp [hN, hD, occCount_append_self]
        · simp [Function.update_noteq hd', hd']
      · intro wid' hw
        refine ⟨by simp [Function.update_noteq hw], fun d' => ?_⟩
        by_cases hd' : d' = d
        · subst hd'
          simp [occCount_append_ne hw]
        · simp [Function.update_noteq hd']

/-- Effect of the whole read fold of one evaluation pass (the getter's
reactive reads in order, each dispatching `addDep`). -/
theorem addDep_foldl (wid : Nat) (reads : List Nat) :
    ∀ (s : DepSys),
      (s.watcher wid).newDeps.Nodup →
      (s.watcher wid).newDeps.toFinset = (s.watcher wid).newDepIds →
      ((reads.foldl (addDep wid) s).watcher wid).depIds
        = (s.watcher wid).depIds ∧
      ((reads.foldl (addDep wid) s).watcher wid).deps
        = (s.watcher wid).deps ∧
      ((reads.foldl (addDep wid) s).watcher wid).active
        = (s.watcher wid).active ∧
      ((reads.foldl (addDep wid) s).watcher wid).newDepIds
        = (s.watcher wid).newDepIds ∪ reads.toFinset ∧
      ((reads.foldl (addDep wid) s).watcher wid).newDeps.Nodup ∧
      ((reads.foldl (addDep wid) s).watcher wid).newDeps.toFinset
        = ((reads.foldl (addDep wid) s).watcher wid).newDepIds ∧
      (∀ d, occCount wid ((reads.foldl (addDep wid) s).subs d) =
        if d ∈ reads.toFinset ∧ d ∉ (s.watcher wid).newDepIds
            ∧ d ∉ (s.watcher wid).depIds
        then occCount wid (s.subs d) + 1 else occCount wid (s.subs d)) ∧
      (∀ wid', wid' ≠ wid →
        ((reads.foldl (addDep wid) s).watcher wid') = s.watcher wid' ∧
        ∀ d, occCount wid' ((reads.foldl (addDep wid) s).subs d)
          = occCount wid' (s.subs d)) := by
  induction reads with
  | nil =>
    intro s hnd hts
    refine ⟨rfl, rfl, rfl, by simp, hnd, hts, ?_, ?_⟩
    · intro d
      simp
    · exact fun _ _ => ⟨rfl, fun _ => rfl⟩
  | cons r rest ih =>
    intro s hnd hts
    obtain ⟨a1, a2, a3, a4, a5, a6, a7, a8⟩ := addDep_step wid r s hnd hts
    obtain ⟨b1, b2, b3, b4, b5, b6, b7, b8⟩ :=
      ih (addDep wid s r) a5 (a6.trans a4.symm)
    rw [List.foldl_cons]
    refine ⟨b1.trans a1, b2.trans a2, b3.trans a3, ?_, b5, b6, ?_, ?_⟩
    · rw [b4, a4, List.toFinset_cons, Finset.insert_union, Finset.union_insert]
    · intro d
      rw [b7 d, a1, a4, a7 d, List.toFinset_cons]
      by_cases h1 : d = r
      · subst h1
        by_cases h3 : d ∈ (s.watcher wid).newDepIds <;>
          by_cases h4 : d ∈ (s.watcher wid).depIds <;>
            simp [h3, h4]
      · by_cases h2 : d ∈ rest.toFinset <;>
          by_cases h3 : d ∈ (s.watcher wid).newDepIds <;>
            by_cases h4 : d ∈ (s.watcher wid).depIds <;>
              simp [h1, h2, h3, h4]
    · intro wid' hw
      refine ⟨((b8 wid' hw).1).trans ((a8 wid' hw).1), fun d => ?_⟩
      rw [(b8 wid' hw).2 d, (a8 wid' hw).2 d]

/-! ### Effect of the `cleanupDeps` / `teardown` removal walk -/

theorem cleanupSubs_occ_self (wid : Nat) (N : Finset Nat) :
    ∀ (L : List Nat), L.Nodup → ∀ (subs : Nat → Subs) (d : Nat),
      occCount wid (cleanupSubs wid L N subs d) =
        if d ∈ L ∧ d ∉ N then occCount wid (subs d) - 1
        else occCount wid (subs d) := by
  intro L
  induction L with
  | nil =>
    intro _ subs d
    simp [cleanupSubs]
  | cons a L' ih =>
    intro hnd subs d
    have hnd' : L'.Nodup := hnd.of_cons
    have hha : a ∉ L' := by
      simpa using (List.nodup_cons.mp hnd).1
    by_cases ha : a ∈ N
    · have : cleanupSubs wid (a :: L') N subs = cleanupSubs wid L' N subs := by
        simp [cleanupSubs, ha]
      rw [this, ih hnd' subs d]
      by_cases hd : d = a
      · subst hd
        simp [hha, ha]
      · simp [hd]
    · have hrw : cleanupSubs wid (a :: L') N subs =
          Function.update (cleanupSubs wid L' N subs) a
            (removeSubSlot wid (cleanupSubs wid L' N subs a)) := by
        simp [cleanupSubs, ha]
      rw [hrw]
      by_cases hd : d = a
      · subst hd
        rw [Function.update_same, occCount_removeSubSlot_self,
          ih hnd' subs d]
        simp [hha, ha]
      · rw [Function.update_noteq hd, ih hnd' subs d]
        simp [hd]

theorem cleanupSubs_occ_ne {wid wid' : Nat} (h : wid' ≠ wid) (N : Finset Nat) :
    ∀ (L : List Nat) (subs : Nat → Subs) (d : Nat),
      occCount wid' (cleanupSubs wid L N subs d) = occCount wid' (subs d) := by
  intro L
  induction L with
  | nil =>
    intro subs d
    simp [cleanupSubs]
  | cons a L' ih =>
    intro subs d
    by_cases ha : a ∈ N
    · have : cleanupSubs wid (a :: L') N subs = cleanupSubs wid L' N subs := by
        simp [cleanupSubs, ha]
      rw [this, ih subs d]
    · have hrw : cleanupSubs wid (a :: L') N subs =
          Function.update (cleanupSubs wid L' N subs) a
            (removeSubSlot wid (cleanupSubs wid L' N subs a)) := by
        simp [cleanupSubs, ha]
      rw [hrw]
      by_cases hd : d = a
      · subst hd
        rw [Function.update_same, occCount_removeSubSlot_ne h, ih subs d]
      · rw [Function.update_noteq hd, ih subs d]

/-- Full effect of one evaluation pass `Watcher.get` on a well-formed
watcher: afterwards the watcher's id set is exactly the set of dep ids
read, its slot count on every dep gains one slot on newly read deps,
keeps its slot on re-read deps, and loses its slot on deps not re-read;
all other watchers are untouched. -/
theorem watcherGet_spec (wid : Nat) (reads : List Nat) (s : DepSys)
    (h1 : (s.watcher wid).newDepIds = ∅)
    (h2 : (s.watcher wid).newDeps = [])
    (h3 : (s.watcher wid).deps.Nodup)
    (h4 : (s.watcher wid).deps.toFinset = (s.watcher wid).depIds) :
    ((watcherGet wid reads s).watcher wid).depIds = reads.toFinset ∧
    ((watcherGet wid reads s).watcher wid).newDepIds = ∅ ∧
    ((watcherGet wid reads s).watcher wid).newDeps = [] ∧
    ((watcherGet wid reads s).watcher wid).deps.Nodup ∧
    ((watcherGet wid reads s).watcher wid).deps.toFinset = reads.toFinset ∧
    ((watcherGet wid reads s).watcher wid).active = (s.watcher wid).active ∧
    (∀ d, occCount wid ((watcherGet wid reads s).subs d) =
      if d ∈ reads.toFinset then
        (if d ∈ (s.watcher wid).depIds then occCount wid (s.subs d)
         else occCount wid (s.subs d) + 1)
      else
        (if d ∈ (s.watcher wid).depIds then occCount wid (s.subs d) - 1
         else occCount wid (s.subs d))) ∧
    (∀ wid', wid' ≠ wid →
      ((watcherGet wid reads s).watcher wid') = s.watcher wid' ∧
      ∀ d, occCount wid' ((watcherGet wid reads s).subs d)
        = occCount wid' (s.subs d)) := by
  have hnd0 : (s.watcher wid).newDeps.Nodup := by rw [h2]; exact List.nodup_nil
  have hts0 : (s.watcher wid).newDeps.toFinset = (s.watcher wid).newDepIds := by
    rw [h2, h1]; rfl
  obtain ⟨f1, f2, f3, f4, f5, f6, f7, f8⟩ := addDep_foldl wid reads s hnd0 hts0
  rw [h1, Finset.empty_union] at f4
  have hget : watcherGet wid reads s
      = cleanupDeps wid (reads.foldl (addDep wid) s) := rfl
  rw [hget]
  unfold cleanupDeps
  constructor
  · simp [Function.update_same, f4]
  constructor
  · simp [Function.update_same]
  constructor
  · simp [Function.update_same]
  constructor
  · simpa [Function.update_same] using f5
  constructor
  · simpa [Function.update_same, f4] using f6
  constructor
  · simpa [Function.update_same] using f3
  constructor
  · intro d
    have hL : ((reads.foldl (addDep wid) s).watcher wid).deps.Nodup := by
      rw [f2]; exact h3
    simp only []
    rw [cleanupSubs_occ_self wid _ _ hL _ d, f7 d, h1, f4, f2]
    have hmem : d ∈ (s.watcher wid).deps ↔ d ∈ (s.watcher wid).depIds := by
      rw [← h4, List.mem_toFinset]
    by_cases hr : d ∈ reads.toFinset
    · by_cases hD : d ∈ (s.watcher wid).depIds
      · simp [hr, hD, hmem]
      · simp [hr, hD, hmem]
    · by_cases hD : d ∈ (s.watcher wid).depIds
      · simp [hr, hD, hmem]
      · simp [hr, hD, hmem]
  · intro wid' hw
    refine ⟨?_, fun d => ?_⟩
    · simp only [Function.update_noteq hw]
      exact (f8 wid' hw).1
    · simp only []
      rw [cleanupSubs_occ_ne hw, (f8 wid' hw).2 d]

/-- Full effect of `Watcher.teardown`: slot counts of this watcher drop
by one on every dep in its `deps` list when it was active; everything
else is unchanged; `depIds`/`deps` themselves are kept. -/
theorem watcherTeardown_spec (wid : Nat) (s : DepSys)
    (h3 : (s.watcher wid).deps.Nodup) :
    ((watcherTeardown wid s).watcher wid).depIds = (s.watcher wid).depIds ∧
    ((watcherTeardown wid s).watcher wid).newDepIds
      = (s.watcher wid).newDepIds ∧
    ((watcherTeardown wid s).watcher wid).deps = (s.watcher wid).deps ∧
    ((watcherTeardown wid s).watcher wid).newDeps
      = (s.watcher wid).newDeps ∧
    (∀ d, occCount wid ((watcherTeardown wid s).subs d) =
      if (s.watcher wid).active ∧ d ∈ (s.watcher wid).deps
      then occCount wid (s.subs d) - 1 else occCount wid (s.subs d)) ∧
    (∀ wid', wid' ≠ wid →
      ((watcherTeardown wid s).watcher wid') = s.watcher wid' ∧
      ∀ d, occCount wid' ((watcherTeardown wid s).subs d)
        = occCount wid' (s.subs d)) := by
  by_cases ha : (s.watcher wid).active
  · have hrw : watcherTeardown wid s =
        { watcher := Function.update s.watcher wid
            { s.watcher wid with active := false },
          subs := cleanupSubs wid (s.watcher wid).deps ∅ s.subs } := by
      simp [watcherTeardown, ha]
    rw [hrw]
    refine ⟨by simp, by simp, by simp, by simp, ?_, ?_⟩
    · intro d
      rw [cleanupSubs_occ_self wid ∅ _ h3 _ d]
      simp [ha]
    · intro wid' hw
      refine ⟨by simp [Function.update_noteq hw], fun d => ?_⟩
      exact cleanupSubs_occ_ne hw ∅ _ _ d
  · have hrw : watcherTeardown wid s = s := by
      simp [watcherTeardown, ha]
    rw [hrw]
    exact ⟨rfl, rfl, rfl, rfl, by simp [ha], fun _ _ => ⟨rfl, fun _ => rfl⟩⟩

/-! ### The at-most-one-slot system invariant -/

/-- The inductive system invariant behind claim C9: every watcher is
between evaluation passes (new sides empty), its `deps` list is
duplicate-free and matches `depIds`, and it occupies at most one
subscriber slot per dep — and none on deps outside `depIds`. -/
def SubsInv (s : DepSys) : Prop :=
  ∀ wid,
    (s.watcher wid).newDepIds = ∅ ∧
    (s.watcher wid).newDeps = [] ∧
    (s.watcher wid).deps.Nodup ∧
    (s.watcher wid).deps.toFinset = (s.watcher wid).depIds ∧
    ∀ d, occCount wid (s.subs d) ≤
      if d ∈ (s.watcher wid).depIds then 1 else 0

theorem subsInv_init : SubsInv initSys := by
  intro wid
  refine ⟨rfl, rfl, List.nodup_nil, rfl, fun d => ?_⟩
  simp [initSys, occCount]

theorem subsInv_applyOp (s : DepSys) (op : DepOp) (h : SubsInv s) :
    SubsInv (applyOp s op) := by
  cases op with
  | run wid reads =>
    obtain ⟨h1, h2, h3, h4, h5⟩ := h wid
    obtain ⟨g1, g2, g3, g4, g5, _, g7, g8⟩ :=
      watcherGet_spec wid reads s h1 h2 h3 h4
    intro wid'
    by_cases hw : wid' = wid
    · subst hw
      refine ⟨g2, g3, g4, g5.trans g1.symm, fun d => ?_⟩
      rw [show applyOp s (DepOp.run wid' reads) = watcherGet wid' reads s
          from rfl, g7 d, g1]
      have hb := h5 d
      by_cases hr : d ∈ reads.toFinset
      · by_cases hD : d ∈ (s.watcher wid').depIds
        · simp only [hr, hD, if_true] at hb ⊢
          exact hb
        · simp only [hr, hD, if_true, if_false] at hb ⊢
          omega
      · by_cases hD : d ∈ (s.watcher wid').depIds
        · simp only [hr, hD, if_true, if_false] at hb ⊢
          omega
        · simp only [hr, hD, if_false] at hb ⊢
          exact hb
    · obtain ⟨hq1, hq2⟩ := g8 wid' hw
      obtain ⟨k1, k2, k3, k4, k5⟩ := h wid'
      rw [show applyOp s (DepOp.run wid reads) = watcherGet wid reads s
          from rfl]
      rw [hq1]
      exact ⟨k1, k2, k3, k4, fun d => by rw [hq2 d]; exact k5 d⟩
  | teardown wid =>
    obtain ⟨h1, h2, h3, h4, h5⟩ := h wid
    obtain ⟨t1, t2, t3, t4, t5, t6⟩ := watcherTeardown_spec wid s h3
    intro wid'
    by_cases hw : wid' = wid
    · subst hw
      rw [show applyOp s (DepOp.teardown wid') = watcherTeardown wid' s
          from rfl]
      refine ⟨t2.trans h1, t4.trans h2, t3 ▸ h3, by rw [t3, t1, h4],
        fun d => ?_⟩
      rw [t5 d, t1]
      have hb := h5 d
      by_cases hc : (s.watcher wid').active ∧ d ∈ (s.watcher wid').deps
      · rw [if_pos hc]
        omega
      · rw [if_neg hc]
        exact hb
    · obtain ⟨hq1, hq2⟩ := t6 wid' hw
      obtain ⟨k1, k2, k3, k4, k5⟩ := h wid'
      rw [show applyOp s (DepOp.teardown wid) = watcherTeardown wid s
          from rfl]
      rw [hq1]
      exact ⟨k1, k2, k3, k4, fun d => by rw [hq2 d]; exact k5 d⟩

theorem subsInv_applyOps (ops : List DepOp) :
    ∀ (s : DepSys), SubsInv s → SubsInv (applyOps s ops) := by
  induction ops with
  | nil => exact fun s h => h
  | cons op rest ih =>
    intro s h
    exact ih (applyOp s op) (subsInv_applyOp s op h)

/-! ## Claim theorems: dependency tracking -/

/-- C1.  Dependency precision of `Watcher.get` / `addDep` / `cleanupDeps`:
starting from a well-formed watcher, after an evaluation pass that read
the dep ids `reads`, the watcher's subscription set is exactly the set of
deps read during that run (stale subscriptions are removed by
`cleanupDeps`), the watcher stays well-formed, and a subsequent
`dep.notify()` of any dep delivers exactly one `update()` to the watcher
if the dep was read in the latest run and none otherwise (`update()` on a
non-lazy, non-sync watcher is one `queueWatcher` call, i.e. one scheduled
re-run). -/
theorem watcher_get_dependency_precision (s : DepSys) (wid : Nat)
    (reads : List Nat) (h : CleanWatcher s wid) :
    CleanWatcher (watcherGet wid reads s) wid ∧
    ((watcherGet wid reads s).watcher wid).depIds = reads.toFinset ∧
    (∀ d, (notifyList ((watcherGet wid reads s).subs d)).count wid =
      if d ∈ reads then 1 else 0) := by
  obtain ⟨h1, h2, h3, h4, h5⟩ := h
  obtain ⟨g1, g2, g3, g4, g5, _, g7, _⟩ := watcherGet_spec wid reads s h1 h2 h3 h4
  have hocc : ∀ d, occCount wid ((watcherGet wid reads s).subs d) =
      if d ∈ reads.toFinset then 1 else 0 := by
    intro d
    rw [g7 d]
    have hb := h5 d
    by_cases hr : d ∈ reads.toFinset
    · by_cases hD : d ∈ (s.watcher wid).depIds
      · simp only [hr, hD, if_true] at hb ⊢
        exact hb
      · simp only [hr, hD, if_true, if_false] at hb ⊢
        omega
    · by_cases hD : d ∈ (s.watcher wid).depIds
      · simp only [hr, hD, if_true, if_false] at hb ⊢
        omega
      · simp only [hr, hD, if_false] at hb ⊢
        exact hb
  refine ⟨⟨g2, g3, g4, g5.trans g1.symm, fun d => by rw [hocc d, g1]⟩,
    g1, fun d => ?_⟩
  rw [count_notifyList, hocc d]
  simp [List.mem_toFinset]

/-- Witness for C1 at concrete inputs: watcher 0 reads deps 1 and 2
(dep 1 twice), then re-evaluates reading deps 2 and 3.  After the second
pass a mutation of dep 1 re-runs nothing (stale subscription pruned),
while deps 2 and 3 each schedule exactly one re-run. -/
theorem watcher_get_dependency_precision_witness :
    (notifyList ((watcherGet 0 [2, 3]
        (watcherGet 0 [1, 2, 1] initSys)).subs 1)).count 0 = 0 ∧
    (notifyList ((watcherGet 0 [2, 3]
        (watcherGet 0 [1, 2, 1] initSys)).subs 2)).count 0 = 1 ∧
    (notifyList ((watcherGet 0 [2, 3]
        (watcherGet 0 [1, 2, 1] initSys)).subs 3)).count 0 = 1 := by
  have hc : CleanWatcher initSys 0 := by
    refine ⟨rfl, rfl, List.nodup_nil, rfl, fun d => ?_⟩
    simp [initSys, occCount]
  have h1 := watcher_get_dependency_precision initSys 0 [1, 2, 1] hc
  have h2 := watcher_get_dependency_precision
    (watcherGet 0 [1, 2, 1] initSys) 0 [2, 3] h1.1
  refine ⟨(h2.2.2 1).trans (by decide), (h2.2.2 2).trans (by decide),
    (h2.2.2 3).trans (by decide)⟩

/-- C9.  A watcher occupies at most one non-null slot of any dep's `subs`
at any time: starting from the initial system, after any sequence of
evaluation passes (`run`/`evaluate`, including ones reading the same dep
several times) and teardowns, every watcher holds at most one non-null
slot in every dep's subscriber list — even though `Dep.addSub` itself
enforces no uniqueness. -/
theorem dep_subs_at_most_one_slot (ops : List DepOp) (wid d : Nat) :
    occCount wid ((applyOps initSys ops).subs d) ≤ 1 := by
  have h := subsInv_applyOps ops initSys subsInv_init wid
  refine (h.2.2.2.2 d).trans ?_
  by_cases hD : d ∈ ((applyOps initSys ops).watcher wid).depIds <;>
    simp [hD]

/-- A shallow reactive field, as the repository installs for component
props (`initProps`, state.ts: `defineReactive` with `shallow = true`) and
for `$attrs`/`$listeners` (`initRender`, init.ts). -/
def c4Shallow : RField := ⟨JVal.num 0, none, false, true, [some 1]⟩

/-- A reactive field over a pre-existing accessor property with a getter
but no setter (index.ts, the issue-7981 branch). -/
def c4GetterOnly : RField :=
  ⟨JVal.undef, some (JVal.num 0), false, false, [some 1]⟩

/-- C4, counterexample: the claim's changed-value half fails for reactive
fields the repository actually installs.  (i) On a shallow field (props,
`$attrs`/`$listeners`) a changed assignment stores the value and notifies
once but never re-observes it (`childOb = newVal && newVal.__ob__`
instead of `observe(newVal)`).  (ii) On a field over a pre-existing
getter without a setter a changed assignment is a complete no-op: the
value is not stored, nothing is re-observed, and no subscriber is
updated. -/
theorem reactiveSetter_claim_counterexample :
    (hasChanged c4Shallow.val (JVal.num 5) = true ∧
      (reactiveSetter c4Shallow (JVal.num 5)).1.val = JVal.num 5 ∧
      (reactiveSetter c4Shallow (JVal.num 5)).2.notifyCount = 1 ∧
      (reactiveSetter c4Shallow (JVal.num 5)).2.observeCalled = false) ∧
    (hasChanged (c4GetterOnly.getterVal.getD c4GetterOnly.val)
        (JVal.num 5) = true ∧
      reactiveSetter c4GetterOnly (JVal.num 5)
        = (c4GetterOnly, ⟨0, false, false, none, []⟩)) := by
  decide

/-- C4 (amended).  The reactive setter installed by `defineReactive`:
writing a value unchanged (identity/NaN-aware comparator, against the
value read through the pre-existing getter when one exists) is a strict
no-op.  For a changed value: with a pre-existing setter, that setter is
invoked and the dep notifies exactly once (re-observing iff not
shallow, the closed-over value untouched); with a getter but no setter,
the write is silently dropped (nothing stored, observed or notified);
on a plain non-shallow field currently holding a ref, a non-ref value is
written through to the ref and nothing is notified; in every remaining
case the value is stored, observed iff the field is not shallow, and the
dep notifies exactly once, delivering `update()` to exactly the non-null
subscribers. -/
theorem reactiveSetter_spec (f : RField) (v : JVal) :
    (hasChanged (f.getterVal.getD f.val) v = false →
      reactiveSetter f v = (f, ⟨0, false, false, none, []⟩)) ∧
    (hasChanged (f.getterVal.getD f.val) v = true →
      (f.hasSetter = true →
        reactiveSetter f v
          = (f, ⟨1, !f.shallow, true, none, notifyList f.depSubs⟩)) ∧
      (f.hasSetter = false → f.getterVal.isSome = true →
        reactiveSetter f v = (f, ⟨0, false, false, none, []⟩)) ∧
      (f.hasSetter = false → f.getterVal = none → f.shallow = false →
        isRef f.val = true → isRef v = false →
        reactiveSetter f v = (f, ⟨0, false, false, some v, []⟩)) ∧
      (f.hasSetter = false → f.getterVal = none →
        (f.shallow = true ∨ isRef f.val = false ∨ isRef v = true) →
        reactiveSetter f v
          = ({ f with val := v },
              ⟨1, !f.shallow, false, none, notifyList f.depSubs⟩))) := by
  constructor
  · intro h
    simp [reactiveSetter, h]
  · intro h
    refine ⟨?_, ?_, ?_, ?_⟩
    · intro hs
      simp [reactiveSetter, h, hs]
    · intro hs hg
      obtain ⟨g, hg2⟩ := Option.isSome_iff_exists.mp hg
      rw [hg2] at h
      simp [reactiveSetter, h, hs, hg2]
    · intro hs hg hsh hr hnr
      rw [hg, Option.getD_none] at h
      simp [reactiveSetter, h, hs, hg, hsh, hr, hnr]
    · intro hs hg hd
      rw [hg, Option.getD_none] at h
      rcases hd with hd | hd | hd <;>
        simp [reactiveSetter, h, hs, hg, hd]

/-- Witness for C4 at concrete inputs: the NaN-to-NaN no-op, a plain
changed write, a getter-only silent drop, and a ref write-through. -/
theorem reactiveSetter_spec_witness :
    reactiveSetter ⟨JVal.nan, none, false, false, [some 1, none, some 2]⟩
        JVal.nan
      = (⟨JVal.nan, none, false, false, [some 1, none, some 2]⟩,
          ⟨0, false, false, none, []⟩) ∧
    reactiveSetter ⟨JVal.num 0, none, false, false, [some 1, none, some 2]⟩
        (JVal.num 5)
      = (⟨JVal.num 5, none, false, false, [some 1, none, some 2]⟩,
          ⟨1, true, false, none, [1, 2]⟩) ∧
    reactiveSetter c4GetterOnly (JVal.num 5)
      = (c4GetterOnly, ⟨0, false, false, none, []⟩) ∧
    reactiveSetter ⟨JVal.ref 3, none, false, false, [some 1]⟩ (JVal.num 5)
      = (⟨JVal.ref 3, none, false, false, [some 1]⟩,
          ⟨0, false, false, some (JVal.num 5), []⟩) := by
  refine ⟨?_, ?_, ?_, ?_⟩
  · exact (reactiveSetter_spec
      ⟨JVal.nan, none, false, false, [some 1, none, some 2]⟩ JVal.nan).1
      (by decide)
  · have h := ((reactiveSetter_spec
      ⟨JVal.num 0, none, false, false, [some 1, none, some 2]⟩
      (JVal.num 5)).2 (by decide)).2.2.2 rfl rfl (Or.inr (Or.inl rfl))
    simpa [notifyList] using h
  · exact ((reactiveSetter_spec c4GetterOnly (JVal.num 5)).2
      (by decide)).2.1 rfl rfl
  · exact ((reactiveSetter_spec
      ⟨JVal.ref 3, none, false, false, [some 1]⟩ (JVal.num 5)).2
      (by decide)).2.2.1 rfl rfl rfl rfl rfl

/-! ## Scheduler (`src/core/observer/scheduler.ts`)

State of the scheduler module: `queue`, the `has` dedup map (modelled by
the list of ids currently mapped to `true`), the `flushing` flag and the
loop cursor `index`; plus the dev-mode `circular` counters and, for the
flush-behaviour proofs, logs of the ids run and warned. -/

/-- `MAX_UPDATE_COUNT` (scheduler.ts line 9). -/
def MAX_UPDATE_COUNT : Nat := 100

/-- The scheduler-relevant fields of a watcher:
`id`, the `post` flag used by `sortCompareFn`, and `noRecurse`. -/
structure WatcherL where
  id : Nat
  post : Bool
  noRecurse : Bool
  deriving DecidableEq, Repr

/-- Scheduler module state. -/
structure Sched where
  queue : List WatcherL
  has : List Nat
  flushing : Bool
  index : Nat
  circular : Nat → Nat
  ran : List Nat
  warned : List Nat

/-- The downward scan of `queueWatcher`'s mid-flush branch:
`let i = queue.length - 1; while (i > index && queue[i].id > watcher.id)
i--`.  The scan walks the queue from its last position leftwards; this
function consumes the position-annotated queue in walk order
(`queue.enum.reverse`) and returns how many steps the scan makes. -/
def spliceTrail (index wid : Nat) : List (Nat × WatcherL) → Nat
  | [] => 0
  | x :: rest =>
    if index < x.1 ∧ wid < x.2.id then spliceTrail index wid rest + 1 else 0

/-- The insertion position `i + 1` at which the mid-flush branch performs
`queue.splice(i + 1, 0, watcher)`: the scan makes `spliceTrail` steps
down from `queue.length - 1`, so it stops at `i = queue.length - 1 -
steps` and inserts at `i + 1 = queue.length - steps`. -/
def qwInsertPos (q : List WatcherL) (index wid : Nat) : Nat :=
  q.length - spliceTrail index wid q.enum.reverse

/-- `queueWatcher` (scheduler.ts lines 182–230).  `isTarget` abstracts
the identity test `watcher === Dep.target`.  Skip when the id is already
marked in `has`; skip the no-recurse target; otherwise mark the id and
either append (not flushing) or splice at the scanned position
(mid-flush).  The trailing `waiting`/`nextTick` block only schedules the
flush callback and does not touch the queue. -/
def queueWatcher (isTarget : Bool) (w : WatcherL) (s : Sched) : Sched :=
  if w.id ∈ s.has then s
  else if isTarget ∧ w.noRecurse then s
  else if !s.flushing then
    { s with has := w.id :: s.has, queue := s.queue ++ [w] }
  else
    { s with has := w.id :: s.has,
             queue := s.queue.take (qwInsertPos s.queue s.index w.id)
               ++ w :: s.queue.drop (qwInsertPos s.queue s.index w.id) }

/-- Number of queue entries carrying a given watcher id. -/
def countId (q : List WatcherL) (i : Nat) : Nat :=
  q.countP (fun w => w.id = i)

/-! ### Characterising the mid-flush splice scan -/

theorem spliceTrail_le_length (index wid : Nat) (l : List (Nat × WatcherL)) :
    spliceTrail index wid l ≤ l.length := by
  induction l with
  | nil => exact Nat.le_refl 0
  | cons x rest ih =>
    by_cases h : index < x.1 ∧ wid < x.2.id
    · simpa [spliceTrail, h] using Nat.succ_le_succ ih
    · simp [spliceTrail, h]

theorem spliceTrail_of_low_pos (index wid : Nat)
    (l : List (Nat × WatcherL)) (h : ∀ x ∈ l, x.1 ≤ index) :
    spliceTrail index wid l = 0 := by
  cases l with
  | nil => rfl
  | cons x rest =>
    have hx : x.1 ≤ index := h x (List.mem_cons_self x rest)
    have : ¬(index < x.1 ∧ wid < x.2.id) := fun hc => absurd hc.1 (by omega)
    simp [spliceTrail, this]

theorem spliceTrail_append (index wid : Nat)
    (X Y : List (Nat × WatcherL)) :
    spliceTrail index wid (X ++ Y) =
      if spliceTrail index wid X < X.length then spliceTrail index wid X
      else X.length + spliceTrail index wid Y := by
  induction X with
  | nil => simp [spliceTrail]
  | cons x rest ih =>
    have hunf : ∀ (l : List (Nat × WatcherL)), spliceTrail index wid (x :: l)
        = if index < x.1 ∧ wid < x.2.id
          then spliceTrail index wid l + 1 else 0 :=
      fun l => rfl
    by_cases h : index < x.1 ∧ wid < x.2.id
    · rw [List.cons_append, hunf, hunf, if_pos h, if_pos h, ih]
      have hle := spliceTrail_le_length index wid rest
      by_cases hlt : spliceTrail index wid rest < rest.length
      · rw [if_pos hlt]
        have hlt2 : spliceTrail index wid rest + 1 < (x :: rest).length := by
          simp only [List.length_cons]
          omega
        rw [if_pos hlt2]
      · rw [if_neg hlt]
        have hlt2 : ¬(spliceTrail index wid rest + 1 < (x :: rest).length) := by
          simp only [List.length_cons]
          omega
        rw [if_neg hlt2]
        simp only [List.length_cons]
        omega
    · rw [List.cons_append, hunf, hunf, if_neg h, if_neg h]
      have hpos : (0 : Nat) < (x :: rest).length := by simp
      rw [if_pos hpos]

theorem spliceTrail_enumFrom (index wid k : Nat) (hk : index < k)
    (S : List WatcherL) :
    spliceTrail index wid ((List.enumFrom k S).reverse) =
      (S.reverse.takeWhile (fun x => decide (wid < x.id))).length := by
  induction S using List.reverseRecOn with
  | nil => simp [spliceTrail]
  | append_singleton S a ih =>
    have hrw : (List.enumFrom k (S ++ [a])).reverse
        = (k + S.length, a) :: (List.enumFrom k S).reverse := by
      rw [List.enumFrom_append, List.enumFrom_singleton, List.reverse_append]
      rfl
    have hrw2 : (S ++ [a]).reverse = a :: S.reverse := by
      rw [List.reverse_append]
      rfl
    rw [hrw, hrw2, List.takeWhile_cons]
    by_cases ha : wid < a.id
    · have hcond : index < k + S.length ∧ wid < a.id := ⟨by omega, ha⟩
      rw [show spliceTrail index wid ((k + S.length, a)
          :: (List.enumFrom k S).reverse)
        = if index < (k + S.length, a).1 ∧ wid < (k + S.length, a).2.id
          then spliceTrail index wid (List.enumFrom k S).reverse + 1
          else 0 from rfl]
      rw [if_pos hcond, ih]
      simp [ha]
    · have hcond : ¬(index < k + S.length ∧ wid < a.id) :=
        fun hc => ha hc.2
      rw [show spliceTrail index wid ((k + S.length, a)
          :: (List.enumFrom k S).reverse)
        = if index < (k + S.length, a).1 ∧ wid < (k + S.length, a).2.id
          then spliceTrail index wid (List.enumFrom k S).reverse + 1
          else 0 from rfl]
      rw [if_neg hcond]
      simp [ha]

/-- The scan steps of the mid-flush splice are exactly the maximal run of
entries after the cursor, taken from the right, whose ids exceed the
queued watcher's id. -/
theorem spliceTrail_char (q : List WatcherL) (index wid : Nat)
    (h : index < q.length) :
    spliceTrail index wid q.enum.reverse =
      ((q.drop (index + 1)).reverse.takeWhile
        (fun x => decide (wid < x.id))).length := by
  have hq : q = q.take (index + 1) ++ q.drop (index + 1) :=
    (List.take_append_drop (index + 1) q).symm
  have hlenA : (q.take (index + 1)).length = index + 1 := by
    rw [List.length_take]
    omega
  conv_lhs => rw [hq]
  rw [List.enum_append, List.reverse_append, spliceTrail_append, hlenA,
    spliceTrail_enumFrom index wid (index + 1) (by omega)]
  have hzero : spliceTrail index wid (q.take (index + 1)).enum.reverse
      = 0 := by
    refine spliceTrail_of_low_pos _ _ _ ?_
    intro x hx
    rw [List.mem_reverse] at hx
    have hall : ∀ y ∈ (q.take (index + 1)).enum,
        (fun z : Nat × WatcherL => z.1 ≤ index) y :=
      List.forall_mem_enum.mpr (fun i hi => by rw [hlenA] at hi; omega)
    exact hall x hx
  rw [hzero]
  have ht : ((q.drop (index + 1)).reverse.takeWhile
      (fun x => decide (wid < x.id))).length ≤
      ((List.enumFrom (index + 1) (q.drop (index + 1))).reverse).length := by
    rw [List.length_reverse, List.enumFrom_length]
    calc ((q.drop (index + 1)).reverse.takeWhile
          (fun x => decide (wid < x.id))).length
        ≤ (q.drop (index + 1)).reverse.length :=
          (List.takeWhile_prefix _).length_le
      _ = (q.drop (index + 1)).length := List.length_reverse _
  split_ifs with hlt
  · rfl
  · omega

theorem qwInsertPos_bounds (q : List WatcherL) (index wid : Nat)
    (h : index < q.length) :
    index < qwInsertPos q index wid ∧ qwInsertPos q index wid ≤ q.length := by
  have hch := spliceTrail_char q index wid h
  have hle : ((q.drop (index + 1)).reverse.takeWhile
      (fun x => decide (wid < x.id))).length ≤ q.length - (index + 1) := by
    calc ((q.drop (index + 1)).reverse.takeWhile
          (fun x => decide (wid < x.id))).length
        ≤ (q.drop (index + 1)).reverse.length :=
          (List.takeWhile_prefix _).length_le
      _ = (q.drop (index + 1)).length := List.length_reverse _
      _ = q.length - (index + 1) := List.length_drop _ _
  unfold qwInsertPos
  rw [hch]
  omega

/-- Boundary of `takeWhile`: the first element not taken falsifies the
predicate. -/
theorem takeWhile_boundary {α : Type} (p : α → Bool) :
    ∀ (l : List α) (x : α),
      l[(l.takeWhile p).length]? = some x → p x = false := by
  intro l
  induction l with
  | nil =>
    intro x hx
    simp at hx
  | cons a l' ih =>
    intro x hx
    by_cases hp : p a
    · rw [List.takeWhile_cons, if_pos hp, List.length_cons,
        List.getElem?_cons_succ] at hx
      exact ih x hx
    · rw [List.takeWhile_cons, if_neg hp] at hx
      simp only [List.length_nil, List.getElem?_cons_zero] at hx
      have hax : a = x := Option.some.inj hx
      rw [← hax]
      simpa using hp

/-- Splicing at the scanned position keeps the live part of the queue
(the entries after the cursor) sorted by ascending id. -/
theorem qwInsert_sorted (q : List WatcherL) (index : Nat) (w : WatcherL)
    (h4 : index < q.length)
    (hS : List.Sorted (fun a b => a.id ≤ b.id) (q.drop (index + 1))) :
    List.Sorted (fun a b => a.id ≤ b.id)
      ((q.take (qwInsertPos q index w.id)
        ++ w :: q.drop (qwInsertPos q index w.id)).drop (index + 1)) := by
  obtain ⟨hp1, hp2⟩ := qwInsertPos_bounds q index w.id h4
  have hch := spliceTrail_char q index w.id h4
  have hpos : qwInsertPos q index w.id =
      q.length - ((q.drop (index + 1)).reverse.takeWhile
        (fun x => decide (w.id < x.id))).length := by
    unfold qwInsertPos
    rw [hch]
  classical
  have hlenS : (q.drop (index + 1)).length = q.length - (index + 1) :=
    List.length_drop _ _
  have htW : ((q.drop (index + 1)).reverse.takeWhile
      (fun x => decide (w.id < x.id))).length ≤ (q.drop (index + 1)).length := by
    calc ((q.drop (index + 1)).reverse.takeWhile
          (fun x => decide (w.id < x.id))).length
        ≤ (q.drop (index + 1)).reverse.length :=
          (List.takeWhile_prefix _).length_le
      _ = (q.drop (index + 1)).length := List.length_reverse _
  have hm : qwInsertPos q index w.id - (index + 1)
      = (q.drop (index + 1)).length - ((q.drop (index + 1)).reverse.takeWhile
        (fun x => decide (w.id < x.id))).length := by
    rw [hpos, hlenS]
    omega
  have hlt : index + 1 ≤ (q.take (qwInsertPos q index w.id)).length := by
    rw [List.length_take]
    omega
  rw [List.drop_append_of_le_length hlt, List.drop_take]
  have hdropdrop : q.drop (qwInsertPos q index w.id)
      = (q.drop (index + 1)).drop (qwInsertPos q index w.id - (index + 1)) := by
    rw [List.drop_drop]
    congr 1
    omega
  rw [hdropdrop, hm]
  set S := q.drop (index + 1) with hSdef
  set tW := (S.reverse.takeWhile (fun x => decide (w.id < x.id))).length
    with htWdef
  set m := S.length - tW with hmdef
  -- every entry in the tail part has id strictly above w's
  have hdropP : ∀ b ∈ S.drop m, w.id < b.id := by
    intro b hb
    have hrevtake : S.reverse.take tW
        = (S.drop (S.length - tW)).reverse := by
      rw [List.take_reverse]
    have htweq : S.reverse.takeWhile (fun x => decide (w.id < x.id))
        = S.reverse.take tW :=
      List.prefix_iff_eq_take.mp (List.takeWhile_prefix _)
    have hb2 : b ∈ S.reverse.take tW := by
      rw [hrevtake, List.mem_reverse]
      exact hb
    rw [← htweq] at hb2
    have := List.mem_takeWhile_imp hb2
    simpa using this
  -- every entry in the head part has id at most w's
  have htakeLe : ∀ a ∈ S.take m, a.id ≤ w.id := by
    intro a ha
    by_cases htm : tW < S.length
    · have hm1 : 1 ≤ m := by omega
      have hmlt : m - 1 < S.length := by omega
      have hsome : S[m - 1]? = some (S.get ⟨m - 1, hmlt⟩) := by
        rw [List.getElem?_eq_getElem hmlt, List.get_eq_getElem]
      have hrev? : S.reverse[tW]? = S[m - 1]? := by
        rw [List.getElem?_reverse htm]
        have hidx : S.length - 1 - tW = m - 1 := by omega
        rw [hidx]
      have hbdry : decide (w.id < (S.get ⟨m - 1, hmlt⟩).id) = false := by
        refine takeWhile_boundary (fun x => decide (w.id < x.id))
          S.reverse (S.get ⟨m - 1, hmlt⟩) ?_
        rw [← htWdef, hrev?]
        exact hsome
      have heid : (S.get ⟨m - 1, hmlt⟩).id ≤ w.id := by simpa using hbdry
      -- split a into the strict prefix and the boundary element
      have hms : m = (m - 1) + 1 := by omega
      rw [hms, List.take_succ, hsome] at ha
      rcases List.mem_append.mp ha with ha' | ha'
      · -- a is in the strict prefix: compare with the boundary via sortedness
        have hsplit := hS
        rw [← List.take_append_drop (m - 1) S] at hsplit
        have hcross := (List.pairwise_append.mp hsplit).2.2
        have hein : S.get ⟨m - 1, hmlt⟩ ∈ S.drop (m - 1) := by
          rw [List.drop_eq_get_cons hmlt]
          exact List.mem_cons_self _ _
        exact le_trans (hcross a ha' _ hein) heid
      · have hae : a = S.get ⟨m - 1, hmlt⟩ := by simpa using ha'
        rw [hae]
        exact heid
    · have hm0 : m = 0 := by omega
      rw [hm0] at ha
      simp at ha
  -- assemble sortedness of `take m ++ w :: drop m`
  have hsort_take : List.Sorted (fun a b => a.id ≤ b.id) (S.take m) :=
    List.Pairwise.sublist (List.take_sublist m S) hS
  have hsort_drop : List.Sorted (fun a b => a.id ≤ b.id) (S.drop m) :=
    List.Pairwise.sublist (List.drop_sublist m S) hS
  have hcrossS : ∀ a ∈ S.take m, ∀ b ∈ S.drop m, a.id ≤ b.id := by
    have hsplit := hS
    rw [← List.take_append_drop m S] at hsplit
    exact (List.pairwise_append.mp hsplit).2.2
  refine List.pairwise_append.mpr ⟨hsort_take, ?_, ?_⟩
  · exact List.sorted_cons.mpr
      ⟨fun b hb => le_of_lt (hdropP b hb), hsort_drop⟩
  · intro a ha b hb
    rcases List.mem_cons.mp hb with rfl | hb'
    · exact htakeLe a ha
    · exact hcrossS a ha b hb'

/-- C2.  `queueWatcher` is idempotent per id (a marked id is a strict
no-op, so N synchronous notifications of one watcher leave exactly one
queue entry for it); an unmarked watcher adds exactly one entry; outside
a flush it is appended; mid-flush it is spliced after the current cursor
(so it still runs in this flush) at a position keeping the live remainder
of the queue sorted by ascending id. -/
theorem queueWatcher_spec (t : Bool) (w : WatcherL) (s : Sched) :
    (queueWatcher t w (queueWatcher t w s) = queueWatcher t w s) ∧
    (w.id ∈ s.has → queueWatcher t w s = s) ∧
    (w.id ∉ s.has → ¬(t = true ∧ w.noRecurse = true) →
      countId (queueWatcher t w s).queue w.id = countId s.queue w.id + 1) ∧
    (w.id ∉ s.has → ¬(t = true ∧ w.noRecurse = true) → s.flushing = false →
      (queueWatcher t w s).queue = s.queue ++ [w]) ∧
    (w.id ∉ s.has → ¬(t = true ∧ w.noRecurse = true) → s.flushing = true →
      s.index < s.queue.length →
      (queueWatcher t w s).queue
        = s.queue.take (qwInsertPos s.queue s.index w.id)
          ++ w :: s.queue.drop (qwInsertPos s.queue s.index w.id) ∧
      s.index < qwInsertPos s.queue s.index w.id ∧
      (List.Sorted (fun a b => a.id ≤ b.id) (s.queue.drop (s.index + 1)) →
        List.Sorted (fun a b => a.id ≤ b.id)
          ((queueWatcher t w s).queue.drop (s.index + 1)))) := by
  refine ⟨?_, ?_, ?_, ?_, ?_⟩
  · by_cases h1 : w.id ∈ s.has
    · simp [queueWatcher, h1]
    · by_cases h2 : t = true ∧ w.noRecurse = true
      · simp [queueWatcher, h1, h2]
      · by_cases h3 : s.flushing
        · simp [queueWatcher, h1, h2, h3]
        · simp [queueWatcher, h1, h2, h3]
  · intro h1
    simp [queueWatcher, h1]
  · intro h1 h2
    by_cases h3 : s.flushing
    · have hq : (queueWatcher t w s).queue
          = s.queue.take (qwInsertPos s.queue s.index w.id)
            ++ w :: s.queue.drop (qwInsertPos s.queue s.index w.id) := by
        simp [queueWatcher, h1, h2, h3]
      rw [hq]
      unfold countId
      rw [List.countP_append, List.countP_cons]
      have hsplit : s.queue.countP (fun x => decide (x.id = w.id))
          = (s.queue.take (qwInsertPos s.queue s.index w.id)).countP
              (fun x => decide (x.id = w.id))
            + (s.queue.drop (qwInsertPos s.queue s.index w.id)).countP
              (fun x => decide (x.id = w.id)) := by
        conv_lhs => rw [← List.take_append_drop
          (qwInsertPos s.queue s.index w.id) s.queue]
        rw [List.countP_append]
      rw [hsplit]
      simp
      omega
    · have hq : (queueWatcher t w s).queue = s.queue ++ [w] := by
        simp [queueWatcher, h1, h2, h3]
      rw [hq]
      unfold countId
      rw [List.countP_append]
      simp
  · intro h1 h2 h3
    simp [queueWatcher, h1, h2, h3]
  · intro h1 h2 h3 h4
    have hq : (queueWatcher t w s).queue
        = s.queue.take (qwInsertPos s.queue s.index w.id)
          ++ w :: s.queue.drop (qwInsertPos s.queue s.index w.id) := by
      simp [queueWatcher, h1, h2, h3]
    refine ⟨hq, (qwInsertPos_bounds s.queue s.index w.id h4).1, ?_⟩
    intro hS
    rw [hq]
    exact qwInsert_sorted s.queue s.index w h4 hS

/-- Witness for C2 at a concrete mid-flush state: queue `[id 1, id 5,
id 9]`, cursor on position 0, watcher id 3 arrives; it is spliced at
position 1 (after the cursor, in id order), exactly one entry exists for
it, and re-queueing it is a no-op. -/
theorem queueWatcher_spec_witness :
    (queueWatcher false ⟨3, false, false⟩
        ⟨[⟨1, false, false⟩, ⟨5, false, false⟩, ⟨9, false, false⟩],
          [5, 9], true, 0, fun _ => 0, [], []⟩).queue
      = [⟨1, false, false⟩, ⟨3, false, false⟩, ⟨5, false, false⟩,
          ⟨9, false, false⟩] ∧
    countId (queueWatcher false ⟨3, false, false⟩
        ⟨[⟨1, false, false⟩, ⟨5, false, false⟩, ⟨9, false, false⟩],
          [5, 9], true, 0, fun _ => 0, [], []⟩).queue 3 = 1 ∧
    queueWatcher false ⟨3, false, false⟩ (queueWatcher false ⟨3, false, false⟩
        ⟨[⟨1, false, false⟩, ⟨5, false, false⟩, ⟨9, false, false⟩],
          [5, 9], true, 0, fun _ => 0, [], []⟩)
      = queueWatcher false ⟨3, false, false⟩
        ⟨[⟨1, false, false⟩, ⟨5, false, false⟩, ⟨9, false, false⟩],
          [5, 9], true, 0, fun _ => 0, [], []⟩ := by
  have h := queueWatcher_spec false ⟨3, false, false⟩
    ⟨[⟨1, false, false⟩, ⟨5, false, false⟩, ⟨9, false, false⟩],
      [5, 9], true, 0, fun _ => 0, [], []⟩
  refine ⟨?_, ?_, h.1⟩
  · have h5 := h.2.2.2.2 (by decide) (by decide) rfl (by decide)
    rw [h5.1]
    decide
  · have h3 := h.2.2.1 (by decide) (by decide)
    rw [h3]
    decide

/-! ## Flush ordering (`sortCompareFn`, scheduler.ts lines 62–71)

`flushSchedulerQueue` begins with `queue.sort(sortCompareFn)` and then
runs `queue[index].run()` for `index = 0, 1, ...`, so the position order
of the sorted queue is the run order. -/

/-- `sortCompareFn`: post-flagged watchers sort after all non-post
watchers; within one category, ascending id (`a.id - b.id`). -/
def sortCompareFn (a b : WatcherL) : Int :=
  if a.post ∧ ¬b.post then 1
  else if ¬a.post ∧ b.post then -1
  else (a.id : Int) - (b.id : Int)

/-- The total preorder induced by the comparator: `a` may be placed
before `b` exactly when the comparator is non-positive.  A comparator
sort (`Array.prototype.sort`) produces a permutation sorted by this
relation. -/
def schedLe (a b : WatcherL) : Prop := sortCompareFn a b ≤ 0

instance : DecidableRel schedLe := fun a b => by
  unfold schedLe
  infer_instance

instance : IsTotal WatcherL schedLe := by
  constructor
  intro a b
  unfold schedLe sortCompareFn
  by_cases ha : a.post <;> by_cases hb : b.post <;> simp [ha, hb] <;> omega

instance : IsTrans WatcherL schedLe := by
  constructor
  intro a b c hab hbc
  unfold schedLe sortCompareFn at hab hbc ⊢
  by_cases ha : a.post <;> by_cases hb : b.post <;> by_cases hc : c.post <;>
    simp [ha, hb, hc] at hab hbc ⊢ <;> omega

/-- `queue.sort(sortCompareFn)` at the start of `flushSchedulerQueue`,
modelled as a comparator sort producing a `schedLe`-sorted permutation. -/
def sortQueue (q : List WatcherL) : List WatcherL :=
  List.insertionSort schedLe q

/-- C3 (amended).  At the start of a flush the queue is sorted: the
result of `sortQueue` is `schedLe`-sorted, every non-post watcher is
placed (hence run) before every post watcher, and among watchers with
the same post flag — in particular a parent and a child render watcher,
the parent having the lower id — the lower id is placed (hence run)
strictly first.  The unqualified parent-before-child consequence fails
when the parent's watcher is post-flagged and the child's is not (see
the counterexample). -/
theorem flush_sort_order (q : List WatcherL) :
    List.Sorted schedLe (sortQueue q) ∧
    (∀ (i j : Nat) (hi : i < (sortQueue q).length)
        (hj : j < (sortQueue q).length),
      ((sortQueue q).get ⟨i, hi⟩).post = false →
      ((sortQueue q).get ⟨j, hj⟩).post = true → i < j) ∧
    (∀ (i j : Nat) (hi : i < (sortQueue q).length)
        (hj : j < (sortQueue q).length),
      ((sortQueue q).get ⟨i, hi⟩).post = ((sortQueue q).get ⟨j, hj⟩).post →
      ((sortQueue q).get ⟨i, hi⟩).id < ((sortQueue q).get ⟨j, hj⟩).id →
      i < j) := by
  have hsorted : List.Sorted schedLe (sortQueue q) :=
    List.sorted_insertionSort schedLe q
  refine ⟨hsorted, ?_, ?_⟩
  · intro i j hi hj hip hjp
    by_contra hij
    have hji : j < i ∨ j = i := by omega
    rcases hji with hji | rfl
    · have := hsorted.rel_get_of_lt (a := ⟨j, hj⟩) (b := ⟨i, hi⟩) hji
      unfold schedLe sortCompareFn at this
      rw [hjp, hip] at this
      simp at this
    · rw [hip] at hjp
      exact Bool.false_ne_true hjp
  · intro i j hi hj hpost hid
    by_contra hij
    have hji : j < i ∨ j = i := by omega
    rcases hji with hji | rfl
    · have hrel := hsorted.rel_get_of_lt (a := ⟨j, hj⟩) (b := ⟨i, hi⟩) hji
      unfold schedLe sortCompareFn at hrel
      simp only [List.get_eq_getElem] at hrel hid hpost
      rw [hpost] at hrel
      simp at hrel
      omega
    · omega

/-- C3 counterexample to the claim as stated: a parent whose watcher is
post-flagged (id 1, created first) and a non-post child watcher (id 2)
are both pending; the sort places the child (id 2) first, so the
parent's `run()` does NOT execute before the child's despite its lower
id. -/
theorem flush_sort_order_counterexample :
    sortQueue [⟨1, true, false⟩, ⟨2, false, false⟩]
      = [⟨2, false, false⟩, ⟨1, true, false⟩] := by
  decide

/-- Witness for C3 on a concrete queue: ids `[3 (post), 2, 1, 4 (post)]`
sort to `[1, 2, 4, 3]` with the non-post pair and the post pair each in
ascending id order, posts last. -/
theorem flush_sort_order_witness :
    sortQueue [⟨3, true, false⟩, ⟨2, false, false⟩, ⟨1, false, false⟩,
        ⟨4, true, false⟩]
      = [⟨1, false, false⟩, ⟨2, false, false⟩, ⟨3, true, false⟩,
          ⟨4, true, false⟩] ∧
    (0 : Nat) < 1 := by
  have h := flush_sort_order [⟨3, true, false⟩, ⟨2, false, false⟩,
    ⟨1, false, false⟩, ⟨4, true, false⟩]
  refine ⟨by decide, ?_⟩
  exact h.2.2 0 1 (by decide) (by decide) (by decide) (by decide)

/-! ## Flush loop and the circular-update guard
(`flushSchedulerQueue`, scheduler.ts lines 77–126)

The loop body, per iteration over `index`:

```ts
watcher = queue[index]
if (watcher.before) { watcher.before() }
id = watcher.id
has[id] = null
watcher.run()
if (__DEV__ && has[id] != null) {
  circular[id] = (circular[id] || 0) + 1
  if (circular[id] > MAX_UPDATE_COUNT) { warn(...); break }
}
```

`watcher.run()` may re-enter `queueWatcher`; the re-entrant enqueues of a
run are abstracted by an effect map `eff` from watcher id to the
watchers its run enqueues (in order).  `warn` is modelled by appending
the id to a `warned` log, a run by appending to a `ran` log.  The `break`
leaves the whole loop; the post-loop bookkeeping
(`resetSchedulerState`, updated/activated hooks, dep compaction) does
not run further watchers. -/

/-- One iteration of the flush loop, given the watcher `w` found at the
cursor (`watcher = queue[index]`).  Returns the next state and whether
the circular-update guard fired (`break`). -/
def flushStep (eff : Nat → List WatcherL) (s : Sched) (w : WatcherL) :
    Sched × Bool :=
  let s1 := { s with has := s.has.erase w.id, ran := s.ran ++ [w.id] }
  let s2 := (eff w.id).foldl (fun acc x => queueWatcher false x acc) s1
  if w.id ∈ s2.has then
    let s3 := { s2 with
      circular := Function.update s2.circular w.id (s2.circular w.id + 1) }
    if MAX_UPDATE_COUNT < s3.circular w.id then
      ({ s3 with warned := s3.warned ++ [w.id] }, true)
    else
      ({ s3 with index := s3.index + 1 }, false)
  else
    ({ s2 with index := s2.index + 1 }, false)

/-- The flush loop `for (index = 0; index < queue.length; index++)`:
the cursor read `queue[index]` yields a watcher while the cursor is in
range and ends the loop otherwise.  Explicit fuel (the loop need not
terminate for arbitrary effect maps; every concrete scenario below
breaks or exhausts the queue within its fuel). -/
def flushLoop (eff : Nat → List WatcherL) : Nat → Sched → Sched
  | 0, s => s
  | fuel + 1, s =>
    (s.queue[s.index]?).elim s (fun w =>
      if (flushStep eff s w).2 then (flushStep eff s w).1
      else flushLoop eff fuel (flushStep eff s w).1)

/-- `flushSchedulerQueue`: set `flushing`, sort the queue, run the loop
from cursor 0. -/
def flushSchedulerQueue (eff : Nat → List WatcherL) (fuel : Nat)
    (s : Sched) : Sched :=
  flushLoop eff fuel
    { s with flushing := true, queue := sortQueue s.queue, index := 0 }

/-- `queueWatcher` only touches `has` and `queue`. -/
theorem queueWatcher_preserves (t : Bool) (w : WatcherL) (s : Sched) :
    (queueWatcher t w s).warned = s.warned ∧
    (queueWatcher t w s).ran = s.ran ∧
    (queueWatcher t w s).circular = s.circular ∧
    (queueWatcher t w s).index = s.index ∧
    (queueWatcher t w s).flushing = s.flushing := by
  unfold queueWatcher
  split_ifs <;> exact ⟨rfl, rfl, rfl, rfl, rfl⟩

theorem queueWatcher_foldl_preserves (l : List WatcherL) :
    ∀ (s : Sched),
      (l.foldl (fun acc x => queueWatcher false x acc) s).warned = s.warned ∧
      (l.foldl (fun acc x => queueWatcher false x acc) s).ran = s.ran ∧
      (l.foldl (fun acc x => queueWatcher false x acc) s).circular
        = s.circular := by
  induction l with
  | nil => exact fun s => ⟨rfl, rfl, rfl⟩
  | cons x rest ih =>
    intro s
    obtain ⟨p1, p2, p3, _, _⟩ := queueWatcher_preserves false x s
    obtain ⟨q1, q2, q3⟩ := ih (queueWatcher false x s)
    exact ⟨q1.trans p1, q2.trans p2, q3.trans p3⟩

/-- C7 (amended).  When the circular-update guard of the flush loop
fires — the watcher at the cursor was re-queued during its own run and
its per-flush counter exceeds `MAX_UPDATE_COUNT` — a diagnostic is
emitted for that watcher's id and the whole loop `break`s: the flush
returns immediately, the broken iteration's run is the last one, and the
remaining queued watchers do not run in that flush (the scheduler then
resets its state rather than crashing). -/
theorem flush_circular_break (eff : Nat → List WatcherL) (fuel : Nat)
    (s : Sched) (w : WatcherL) (hsome : s.queue[s.index]? = some w)
    (hbrk : (flushStep eff s w).2 = true) :
    flushLoop eff (fuel + 1) s = (flushStep eff s w).1 ∧
    (flushStep eff s w).1.warned = s.warned ++ [w.id] ∧
    (flushStep eff s w).1.ran = s.ran ++ [w.id] := by
  refine ⟨?_, ?_⟩
  · rw [show flushLoop eff (fuel + 1) s
        = (s.queue[s.index]?).elim s (fun x =>
            if (flushStep eff s x).2 then (flushStep eff s x).1
            else flushLoop eff fuel (flushStep eff s x).1) from rfl]
    rw [hsome, Option.elim_some, if_pos hbrk]
  · obtain ⟨f1, f2, f3⟩ := queueWatcher_foldl_preserves (eff w.id)
      { s with has := s.has.erase w.id, ran := s.ran ++ [w.id] }
    unfold flushStep at hbrk ⊢
    simp only [] at hbrk ⊢
    split_ifs at hbrk ⊢ with h1 h2
    exact ⟨by simp [f1], by simp [f2]⟩

/-! ### The C7 runaway scenario, run from the start of a flush

Watcher 1 re-queues itself on every run; watcher 2 sits behind it in the
queue.  After the 101st re-trigger the guard fires: the diagnostic is
emitted for id 1 and the flush stops — watcher 2, still pending, never
runs, refuting the claim that the remaining queued watchers of the flush
still run. -/

def c7Watcher1 : WatcherL := ⟨1, false, false⟩

def c7Watcher2 : WatcherL := ⟨2, false, false⟩

/-- Effect map: each run of watcher 1 mutates state read by watcher 1
itself, re-enqueueing it; nothing else enqueues. -/
def c7Eff : Nat → List WatcherL :=
  fun i => if i = 1 then [c7Watcher1] else []

/-- The flush state after `k` iterations of the scenario: `k` runs of
watcher 1 so far, each having re-inserted one copy of watcher 1 before
watcher 2, cursor at `k`, per-flush counter for id 1 at `k`. -/
def c7State (k : Nat) : Sched :=
  { queue := List.replicate (k + 1) c7Watcher1 ++ [c7Watcher2],
    has := [1, 2],
    flushing := true,
    index := k,
    circular := fun i => if i = 1 then k else 0,
    ran := List.replicate k 1,
    warned := [] }

/-- The state in which the scenario's flush ends: the guard fired at the
101st re-trigger; watcher 2 never ran. -/
def c7Final : Sched :=
  { queue := List.replicate 102 c7Watcher1 ++ [c7Watcher2],
    has := [1, 2],
    flushing := true,
    index := 100,
    circular := fun i => if i = 1 then 101 else 0,
    ran := List.replicate 101 1,
    warned := [1] }

theorem c7State_cursor (k : Nat) :
    (c7State k).queue[(c7State k).index]? = some c7Watcher1 := by
  show (List.replicate (k + 1) c7Watcher1 ++ [c7Watcher2])[k]?
    = some c7Watcher1
  rw [List.getElem?_append_left (by simp)]
  rw [List.getElem?_eq_getElem (by simp)]
  rw [List.getElem_replicate]

theorem c7_step (k : Nat) (hk : k ≤ 100) :
    flushStep c7Eff (c7State k) c7Watcher1
      = if k < 100 then (c7State (k + 1), false) else (c7Final, true) := by
  have hdrop : (List.replicate (k + 1) c7Watcher1 ++ [c7Watcher2]).drop (k + 1)
      = [c7Watcher2] := by
    have hd := List.drop_left (List.replicate (k + 1) c7Watcher1) [c7Watcher2]
    rwa [List.length_replicate] at hd
  have htake : (List.replicate (k + 1) c7Watcher1 ++ [c7Watcher2]).take (k + 1)
      = List.replicate (k + 1) c7Watcher1 := by
    have ht := List.take_left (List.replicate (k + 1) c7Watcher1) [c7Watcher2]
    rwa [List.length_replicate] at ht
  have hqlen : (List.replicate (k + 1) c7Watcher1 ++ [c7Watcher2]).length
      = k + 2 := by
    simp
  have hchar := spliceTrail_char
    (List.replicate (k + 1) c7Watcher1 ++ [c7Watcher2]) k 1 (by omega)
  rw [hdrop] at hchar
  have hchar1 : spliceTrail k 1
      (List.replicate (k + 1) c7Watcher1 ++ [c7Watcher2]).enum.reverse = 1 := by
    rw [hchar]
    simp [c7Watcher2]
  have hpos : qwInsertPos
      (List.replicate (k + 1) c7Watcher1 ++ [c7Watcher2]) k 1 = k + 1 := by
    unfold qwInsertPos
    rw [hchar1, hqlen]
    omega
  have hq2 : queueWatcher false c7Watcher1
      ⟨List.replicate (k + 1) c7Watcher1 ++ [c7Watcher2], [2], true, k,
        fun i => if i = 1 then k else 0, List.replicate (k + 1) 1, []⟩
      = ⟨List.replicate (k + 2) c7Watcher1 ++ [c7Watcher2], [1, 2], true, k,
        fun i => if i = 1 then k else 0, List.replicate (k + 1) 1, []⟩ := by
    unfold queueWatcher
    rw [if_neg (by simp [c7Watcher1]), if_neg (by simp), if_neg (by simp)]
    rw [show c7Watcher1.id = 1 from rfl]
    rw [show (⟨List.replicate (k + 1) c7Watcher1 ++ [c7Watcher2], [2], true, k,
        fun i => if i = 1 then k else 0, List.replicate (k + 1) 1, []⟩
        : Sched).queue = List.replicate (k + 1) c7Watcher1 ++ [c7Watcher2]
      from rfl]
    rw [show (⟨List.replicate (k + 1) c7Watcher1 ++ [c7Watcher2], [2], true, k,
        fun i => if i = 1 then k else 0, List.replicate (k + 1) 1, []⟩
        : Sched).index = k from rfl]
    rw [hpos, htake, hdrop]
    rw [List.replicate_succ' (k + 1), List.append_assoc]
    rfl
  have hcirc : Function.update (fun i => if i = 1 then k else 0) 1 (k + 1)
      = (fun i => if i = 1 then k + 1 else 0) := by
    funext i
    by_cases hi : i = 1 <;> simp [Function.update, hi]
  simp only [flushStep]
  rw [show c7Watcher1.id = 1 from rfl]
  rw [show (c7State k).has = [1, 2] from rfl,
    show (c7State k).ran = List.replicate k 1 from rfl]
  rw [show ([1, 2] : List Nat).erase 1 = [2] from rfl,
    ← List.replicate_succ']
  rw [show c7Eff 1 = [c7Watcher1] from rfl]
  rw [List.foldl_cons, List.foldl_nil]
  have hbase : (⟨(c7State k).queue, [2], (c7State k).flushing,
      (c7State k).index, (c7State k).circular, List.replicate (k + 1) 1,
      (c7State k).warned⟩ : Sched)
    = ⟨List.replicate (k + 1) c7Watcher1 ++ [c7Watcher2], [2], true, k,
        fun i => if i = 1 then k else 0, List.replicate (k + 1) 1, []⟩ := rfl
  rw [hbase]
  rw [hq2]
  rw [if_pos (show (1 : Nat) ∈ [1, 2] by simp)]
  rw [show (⟨List.replicate (k + 2) c7Watcher1 ++ [c7Watcher2], [1, 2], true,
      k, fun i => if i = 1 then k else 0, List.replicate (k + 1) 1, []⟩
      : Sched).circular = (fun i => if i = 1 then k else 0) from rfl]
  rw [show ((fun i => if i = 1 then k else 0) 1 : Nat) = k from rfl]
  rw [hcirc]
  rw [show ((fun i => if i = 1 then k + 1 else 0) 1 : Nat) = k + 1 from rfl]
  by_cases hk100 : k < 100
  · rw [if_pos hk100]
    rw [if_neg (show ¬ MAX_UPDATE_COUNT < k + 1 by
      unfold MAX_UPDATE_COUNT
      omega)]
    rfl
  · have hk' : k = 100 := by omega
    subst hk'
    rw [if_neg hk100]
    rw [if_pos (by decide)]
    rfl

/-- Running the scenario's flush: starting `n + 1` fuel steps before the
guard fires (with `k + n = 100` iterations already performed at state
`k`), the flush ends in `c7Final`. -/
theorem c7_loop (n : Nat) :
    ∀ (k : Nat), k + n = 100 →
      flushLoop c7Eff (n + 1) (c7State k) = c7Final := by
  induction n with
  | zero =>
    intro k hkn
    have hk : k = 100 := by omega
    subst hk
    rw [show flushLoop c7Eff 1 (c7State 100)
        = ((c7State 100).queue[(c7State 100).index]?).elim (c7State 100)
            (fun w => if (flushStep c7Eff (c7State 100) w).2
              then (flushStep c7Eff (c7State 100) w).1
              else flushLoop c7Eff 0 (flushStep c7Eff (c7State 100) w).1)
      from rfl]
    rw [c7State_cursor, Option.elim_some]
    rw [c7_step 100 (by omega)]
    rw [if_neg (show ¬ (100 : Nat) < 100 by decide)]
    rw [show ((c7Final, true) : Sched × Bool).2 = true from rfl]
    rw [if_pos rfl]
  | succ n ih =>
    intro k hkn
    have hk : k < 100 := by omega
    rw [show flushLoop c7Eff (n + 1 + 1) (c7State k)
        = ((c7State k).queue[(c7State k).index]?).elim (c7State k)
            (fun w => if (flushStep c7Eff (c7State k) w).2
              then (flushStep c7Eff (c7State k) w).1
              else flushLoop c7Eff (n + 1) (flushStep c7Eff (c7State k) w).1)
      from rfl]
    rw [c7State_cursor, Option.elim_some]
    rw [c7_step k (by omega), if_pos hk]
    rw [show ((c7State (k + 1), false) : Sched × Bool).2 = false from rfl]
    rw [if_neg (by simp)]
    exact ih (k + 1) (by omega)

/-- C7 counterexample to the claim as stated: the runaway scenario run
from the start of a flush (101 fuel is exactly enough).  The diagnostic
is emitted for watcher 1 (`warned = [1]`) — yet watcher 2, queued in the
same flush behind watcher 1, never runs (`ran` contains no `2`): the
whole remainder of the flush is abandoned (the loop broke with the
cursor still inside the queue), not just the runaway watcher's own
re-runs. -/
theorem flush_circular_break_counterexample :
    flushLoop c7Eff 101 (c7State 0) = c7Final ∧
    c7Final.warned = [1] ∧
    List.count 2 c7Final.ran = 0 ∧
    c7Final.index < c7Final.queue.length := by
  refine ⟨c7_loop 100 0 (by omega), rfl, ?_, ?_⟩
  · show List.count 2 (List.replicate 101 1) = 0
    rw [List.count_replicate]
    decide
  · show (100 : Nat) < (List.replicate 102 c7Watcher1 ++ [c7Watcher2]).length
    simp

/-- Witness for the amended C7 theorem at a concrete breaking state:
queue `[watcher 1]`, per-flush counter already at 100, watcher 1
re-queues itself; the flush returns after this one run with the
diagnostic emitted. -/
theorem flush_circular_break_witness :
    (flushLoop c7Eff 1
      ⟨[c7Watcher1], [], true, 0, fun _ => 100, [], []⟩).warned = [1] ∧
    (flushLoop c7Eff 1
      ⟨[c7Watcher1], [], true, 0, fun _ => 100, [], []⟩).ran = [1] := by
  have h := flush_circular_break c7Eff 0
    ⟨[c7Watcher1], [], true, 0, fun _ => 100, [], []⟩ c7Watcher1
    (by decide) (by decide)
  constructor
  · rw [h.1, h.2.1]
    decide
  · rw [h.1, h.2.2]
    decide

/-! ## Virtual nodes and `sameVnode`
(`src/core/vdom/create-element.ts` lines 257–275) -/

/-- The value of the JS chain
`isDef((i = a.data)) && isDef((i = i.attrs)) && i.type`:
`false` when `data` or `attrs` is missing (the `&&` chain short-circuits
to the boolean), `undefined` when `attrs.type` is absent, otherwise the
string.  `false` and `undefined` are distinct under `===`. -/
inductive InputTypeVal : Type where
  | jsFalse
  | jsUndef
  | jsStr (s : String)
  deriving DecidableEq, Repr

/-- The attributes record of a VNode's data (only the field the embedded
routines read; `type` is a reserved word in Lean, hence `typeAttr`). -/
structure VAttrs where
  typeAttr : Option String
  deriving DecidableEq, Repr

/-- `VNodeData` (only the field the embedded routines read). -/
structure VNodeData where
  attrs : Option VAttrs
  deriving DecidableEq, Repr

/-- An async component factory.  Factories are compared with `===`
(identity); `fid` is the identity tag — each distinct factory object
carries a distinct tag, so structural equality models identity.  `err`
records whether `factory.error` is defined. -/
structure AsyncFactory where
  fid : Nat
  err : Bool
  deriving DecidableEq, Repr

/-- A virtual node, restricted to the attributes that `sameVnode`,
`sameInputType` and `updateChildren` read.  `elm` is the identity of the
materialised real node. -/
structure VNode where
  tag : Option String
  key : Option Nat
  isComment : Bool
  data : Option VNodeData
  asyncFactory : Option AsyncFactory
  isAsyncPlaceholder : Bool
  elm : Nat
  deriving DecidableEq, Repr

/-- The input-type chain value of a VNode (see `InputTypeVal`). -/
def inputTypeVal (v : VNode) : InputTypeVal :=
  match v.data with
  | none => .jsFalse
  | some d =>
    match d.attrs with
    | none => .jsFalse
    | some a =>
      match a.typeAttr with
      | none => .jsUndef
      | some s => .jsStr s

/-- Modelled from the spec: `isTextInputType` is
`makeMap('text,number,password,search,email,tel,url')` from
`web/util/element.ts`, which is not among the sources — the spec calls
these the text-like input types.  Only a string can be a member. -/
def isTextInputType : InputTypeVal → Bool
  | .jsStr s =>
    s ∈ (["text", "number", "password", "search", "email", "tel", "url"]
      : List String)
  | _ => false

/-- `sameInputType` (lines 269–275): vacuously true unless `a` is an
`<input>`; otherwise the two chain values must be strictly equal or both
text-like input types. -/
def sameInputType (a b : VNode) : Bool :=
  if a.tag ≠ some "input" then true
  else
    inputTypeVal a == inputTypeVal b
      || (isTextInputType (inputTypeVal a) && isTextInputType (inputTypeVal b))

/-- `sameVnode` (lines 257–267).  On the async-placeholder branch the
source reads `b.asyncFactory.error`; a `b` without factory would throw
there — the model returns `false` for that case (placeholders always
carry a factory). -/
def sameVnode (a b : VNode) : Bool :=
  a.key == b.key && a.asyncFactory == b.asyncFactory
    && ((a.tag == b.tag && a.isComment == b.isComment
          && a.data.isSome == b.data.isSome && sameInputType a b)
        || (a.isAsyncPlaceholder
            && (match b.asyncFactory with
                | some f => !f.err
                | none => false)))

/-- C5 counterexample to the claim as stated: `a` is an async
placeholder (`div`-tagged) and `b` a `span` whose async factory is the
same object and has no error.  `sameVnode` returns `true` although the
tags differ, so tag equality is not necessary — the claimed "iff" omits
the async-placeholder branch of the source. -/
theorem sameVnode_claim_counterexample :
    sameVnode
      ⟨some "div", none, false, none, some ⟨7, false⟩, true, 1⟩
      ⟨some "span", none, false, none, some ⟨7, false⟩, false, 2⟩ = true ∧
    (⟨some "div", none, false, none, some ⟨7, false⟩, true, 1⟩
      : VNode).tag ≠
    (⟨some "span", none, false, none, some ⟨7, false⟩, false, 2⟩
      : VNode).tag := by
  decide

/-- C5 (amended).  `sameVnode a b` is true iff the keys are equal, the
async factories are identical, and either (i) the tags, comment flags
and data-definedness agree and — when `a` is an `<input>` — the two
input-type chain values are strictly equal or both text-like, or
(ii) `a` is an async placeholder and `b`'s async factory is present
without error. -/
theorem sameVnode_spec (a b : VNode) :
    sameVnode a b = true ↔
      (a.key = b.key ∧ a.asyncFactory = b.asyncFactory ∧
        ((a.tag = b.tag ∧ a.isComment = b.isComment ∧
            a.data.isSome = b.data.isSome ∧
            (a.tag = some "input" →
              inputTypeVal a = inputTypeVal b ∨
                (isTextInputType (inputTypeVal a) = true ∧
                  isTextInputType (inputTypeVal b) = true))) ∨
          (a.isAsyncPlaceholder = true ∧
            ∃ f, b.asyncFactory = some f ∧ f.err = false))) := by
  have hinput : sameInputType a b = true ↔
      (a.tag = some "input" →
        inputTypeVal a = inputTypeVal b ∨
          (isTextInputType (inputTypeVal a) = true ∧
            isTextInputType (inputTypeVal b) = true)) := by
    unfold sameInputType
    by_cases htag : a.tag = some "input"
    · simp [htag]
    · simp [htag]
  have hmatch : (match b.asyncFactory with
      | some f => !f.err
      | none => false) = true ↔
      ∃ f, b.asyncFactory = some f ∧ f.err = false := by
    cases hf : b.asyncFactory with
    | none => simp
    | some f => simp
  unfold sameVnode
  simp only [Bool.and_eq_true, Bool.or_eq_true, beq_iff_eq, hinput, hmatch]
  simp only [and_assoc]

/-! ## Child-list reconciliation
(`updateChildren`, create-element.ts lines 681–901; `findIdxInOld`,
lines 921–926)

The algorithm is position-driven over two child arrays; consumed old
slots are set to `undefined`.  Indices are modelled as `Int` because the
end cursors legitimately reach `-1`.  `patchVnode` is recorded as an
in-place patch event; its recursive descent does not move, create or
destroy nodes at this child-list level.  The loop emits an operation log
from which the real-node operations are counted. -/

/-- The observable operations of one `updateChildren` run. -/
inductive ChildOp : Type where
  /-- case a: old start slot consumed, advance. -/
  | skipOldStartUndef
  /-- case b: old end slot consumed, retreat. -/
  | skipOldEndUndef
  /-- case c: `patchVnode(oldStart, newStart)`, no real-node move. -/
  | patchStartStart
  /-- case d: `patchVnode(oldEnd, newEnd)`, no real-node move. -/
  | patchEndEnd
  /-- case e: patch and `insertBefore(parent, oldStart.elm,
  nextSibling(oldEnd.elm))` — one move of a real node. -/
  | moveRight
  /-- case f: patch and `insertBefore(parent, oldEnd.elm,
  oldStart.elm)` — one move of a real node. -/
  | moveLeft
  /-- case g, reusable keyed/scanned match: patch, mark old slot
  consumed, `insertBefore` — one move of a real node. -/
  | fallbackPatchMove
  /-- case g, no reusable match: `createElm` — one node creation. -/
  | fallbackCreate
  /-- post-loop `addVnodes`: `n` node creations. -/
  | addRemaining (n : Nat)
  /-- post-loop `removeVnodes`: `n` node destructions. -/
  | removeRemaining (n : Nat)
  deriving DecidableEq, Repr

/-- Read of `oldCh[i]` (slots may be consumed, i.e. `undefined`). -/
def nthO (l : List (Option VNode)) (i : Int) : Option VNode :=
  if i < 0 then none else (l[i.toNat]?).getD none

/-- Read of `newCh[i]`. -/
def nthN (l : List VNode) (i : Int) : Option VNode :=
  if i < 0 then none else l[i.toNat]?

/-- `createKeyToOldIdx` (lines 281–295): `map[key] = i` for every keyed
child in `[beginIdx, endIdx]`; a JS object assignment overwrites, so
lookups see the last index per key — prepending and taking the first
match models that.  (All slots in the range are still defined when the
map is built, on the first keyed fallback.) -/
def createKeyToOldIdx (oldCh : List (Option VNode)) (b e : Int) :
    List (Nat × Int) :=
  (List.range ((e - b + 1).toNat)).foldl
    (fun (m : List (Nat × Int)) (j : Nat) =>
      match nthO oldCh (b + (j : Int)) with
      | some c =>
        match c.key with
        | some k => (k, b + (j : Int)) :: m
        | none => m
      | none => m)
    []

/-- Lookup in the key map (first entry = last JS assignment). -/
def keyLookup (m : List (Nat × Int)) (k : Nat) : Option Int :=
  (m.find? (fun p => p.1 = k)).map (fun p => p.2)

/-- `findIdxInOld` (lines 921–926): linear scan of the defined slots of
`oldCh` for a logical match, over `i = start; i < end; i++` — the bound
`end` is exclusive. -/
def findIdxInOld (node : VNode) (oldCh : List (Option VNode))
    (start e : Int) : Option Int :=
  (List.range ((e - start).toNat)).findSome?
    (fun (j : Nat) =>
      match nthO oldCh (start + (j : Int)) with
      | some c => if sameVnode node c then some (start + (j : Int)) else none
      | none => none)

/-- The main cursor loop of `updateChildren` (the `while (oldStartIdx <=
oldEndIdx && newStartIdx <= newEndIdx)` loop).  The old child list is
threaded (its slots are consumed by the keyed fallback); the key map is
built lazily.  Returns the operation log and the final cursors for the
post-loop add/remove phase.  Fuel strictly exceeds any possible
iteration count at the call site.  A stale keyed-map hit on a consumed
slot (possible only with duplicate keys, where the source would fault on
`undefined`) is treated as no reusable match. -/
def ucLoop (newCh : List VNode) :
    Nat → List (Option VNode) → Int → Int → Int → Int →
    Option (List (Nat × Int)) → List ChildOp →
    List ChildOp × Int × Int × Int × Int
  | 0, _, osi, oei, nsi, nei, _, ops => (ops, osi, oei, nsi, nei)
  | fuel + 1, oldCh, osi, oei, nsi, nei, km, ops =>
    if osi ≤ oei ∧ nsi ≤ nei then
      match nthO oldCh osi with
      | none =>
        ucLoop newCh fuel oldCh (osi + 1) oei nsi nei km
          (ops ++ [.skipOldStartUndef])
      | some oldStartVnode =>
        match nthO oldCh oei with
        | none =>
          ucLoop newCh fuel oldCh osi (oei - 1) nsi nei km
            (ops ++ [.skipOldEndUndef])
        | some oldEndVnode =>
          match nthN newCh nsi, nthN newCh nei with
          | some newStartVnode, some newEndVnode =>
            if sameVnode oldStartVnode newStartVnode then
              ucLoop newCh fuel oldCh (osi + 1) oei (nsi + 1) nei km
                (ops ++ [.patchStartStart])
            else if sameVnode oldEndVnode newEndVnode then
              ucLoop newCh fuel oldCh osi (oei - 1) nsi (nei - 1) km
                (ops ++ [.patchEndEnd])
            else if sameVnode oldStartVnode newEndVnode then
              ucLoop newCh fuel oldCh (osi + 1) oei nsi (nei - 1) km
                (ops ++ [.moveRight])
            else if sameVnode oldEndVnode newStartVnode then
              ucLoop newCh fuel oldCh osi (oei - 1) (nsi + 1) nei km
                (ops ++ [.moveLeft])
            else
              let km2 := match km with
                | some m => m
                | none => createKeyToOldIdx oldCh osi oei
              let idxInOld := match newStartVnode.key with
                | some k => keyLookup km2 k
                | none => findIdxInOld newStartVnode oldCh osi oei
              match idxInOld with
              | none =>
                ucLoop newCh fuel oldCh osi oei (nsi + 1) nei (some km2)
                  (ops ++ [.fallbackCreate])
              | some idx =>
                match nthO oldCh idx with
                | some vnodeToMove =>
                  if sameVnode vnodeToMove newStartVnode then
                    ucLoop newCh fuel (oldCh.set idx.toNat none) osi oei
                      (nsi + 1) nei (some km2) (ops ++ [.fallbackPatchMove])
                  else
                    ucLoop newCh fuel oldCh osi oei (nsi + 1) nei (some km2)
                      (ops ++ [.fallbackCreate])
                | none =>
                  ucLoop newCh fuel oldCh osi oei (nsi + 1) nei (some km2)
                    (ops ++ [.fallbackCreate])
          | _, _ => (ops, osi, oei, nsi, nei)
    else (ops, osi, oei, nsi, nei)

/-- `updateChildren`: run the cursor loop, then `addVnodes` the
unconsumed new range if the old side was exhausted first, or
`removeVnodes` the unconsumed old range if the new side was. -/
def updateChildren (oldCh newCh : List VNode) : List ChildOp :=
  match ucLoop newCh (oldCh.length + newCh.length + 1) (oldCh.map some)
    0 ((oldCh.length : Int) - 1) 0 ((newCh.length : Int) - 1) none [] with
  | (ops, osi, oei, nsi, nei) =>
    if osi > oei then ops ++ [.addRemaining (nei + 1 - nsi).toNat]
    else if nsi > nei then ops ++ [.removeRemaining (oei + 1 - osi).toNat]
    else ops

/-- Number of `insertBefore` calls on existing real nodes (moves). -/
def insertBeforeMoves (ops : List ChildOp) : Nat :=
  ops.countP (fun op => op = ChildOp.moveRight ∨ op = ChildOp.moveLeft
    ∨ op = ChildOp.fallbackPatchMove)

/-- Number of real nodes created (`createElm` and `addVnodes`). -/
def createdNodes (ops : List ChildOp) : Nat :=
  ops.foldl
    (fun acc op =>
      acc + match op with
        | ChildOp.fallbackCreate => 1
        | ChildOp.addRemaining n => n
        | _ => 0)
    0

/-- Number of real nodes destroyed (`removeVnodes`). -/
def destroyedNodes (ops : List ChildOp) : Nat :=
  ops.foldl
    (fun acc op =>
      acc + match op with
        | ChildOp.removeRemaining n => n
        | _ => 0)
    0

/-- Whether a run used only the start/end cursor matches (cases c–f):
no consumed-slot skips, no keyed/scanned fallback, and empty post-loop
phases. -/
def usedOnlyCursorMatches (ops : List ChildOp) : Bool :=
  ops.all
    (fun op =>
      match op with
      | ChildOp.patchStartStart => true
      | ChildOp.patchEndEnd => true
      | ChildOp.moveRight => true
      | ChildOp.moveLeft => true
      | ChildOp.addRemaining n => n = 0
      | ChildOp.removeRemaining n => n = 0
      | _ => false)

/-! ### C6: the four-element reversal -/

/-- A keyed `<li>` vnode with key `k` and real-node handle `e`. -/
def liNode (k e : Nat) : VNode :=
  ⟨some "li", some k, false, none, none, false, e⟩

/-- C6 counterexample to the claim as stated: reconciling `[a,b,c,d]`
against `[d,c,b,a]` (all keyed, pairwise same-logical-node) issues
exactly 3 insert-before moves, not 4 — the fourth pair meets as a
start-start match (`patchVnode` in place, no move). -/
theorem updateChildren_reversal_counterexample :
    insertBeforeMoves (updateChildren
        [liNode 1 1, liNode 2 2, liNode 3 3, liNode 4 4]
        [liNode 4 4, liNode 3 3, liNode 2 2, liNode 1 1]) = 3 ∧
    insertBeforeMoves (updateChildren
        [liNode 1 1, liNode 2 2, liNode 3 3, liNode 4 4]
        [liNode 4 4, liNode 3 3, liNode 2 2, liNode 1 1]) ≠ 4 := by
  decide

/-- C6 (amended).  Reconciling `[a,b,c,d]` against `[d,c,b,a]` (all
keyed, pairwise same-logical-node) terminates using only the start/end
cursor matches — three old-start/new-end matches each moving one real
node, then one start-start match patching in place — for exactly 3
insert-before moves, 0 node creations and 0 node destructions. -/
theorem updateChildren_reversal :
    updateChildren
        [liNode 1 1, liNode 2 2, liNode 3 3, liNode 4 4]
        [liNode 4 4, liNode 3 3, liNode 2 2, liNode 1 1]
      = [.moveRight, .moveRight, .moveRight, .patchStartStart,
          .addRemaining 0] ∧
    usedOnlyCursorMatches (updateChildren
        [liNode 1 1, liNode 2 2, liNode 3 3, liNode 4 4]
        [liNode 4 4, liNode 3 3, liNode 2 2, liNode 1 1]) = true ∧
    insertBeforeMoves (updateChildren
        [liNode 1 1, liNode 2 2, liNode 3 3, liNode 4 4]
        [liNode 4 4, liNode 3 3, liNode 2 2, liNode 1 1]) = 3 ∧
    createdNodes (updateChildren
        [liNode 1 1, liNode 2 2, liNode 3 3, liNode 4 4]
        [liNode 4 4, liNode 3 3, liNode 2 2, liNode 1 1]) = 0 ∧
    destroyedNodes (updateChildren
        [liNode 1 1, liNode 2 2, liNode 3 3, liNode 4 4]
        [liNode 4 4, liNode 3 3, liNode 2 2, liNode 1 1]) = 0 := by
  decide

/-! ### C10: `findIdxInOld` never considers the old-end position

The concrete scenario exploits the asymmetry of `sameVnode`: the unkeyed
new-start node is an async placeholder whose only logical match
(`sameVnode(newStart, ·)`) in the unconsumed old range is the node at
the old-end index — which the cursor check (`sameVnode(oldEnd,
newStart)`, in the other argument order) did not catch. -/

def c10OldStart : VNode := ⟨some "div", none, false, none, none, false, 1⟩

def c10OldEnd : VNode :=
  ⟨some "span", none, false, none, some ⟨7, false⟩, false, 2⟩

def c10NewStart : VNode :=
  ⟨none, none, false, none, some ⟨7, false⟩, true, 3⟩

def c10NewEnd : VNode := ⟨some "p", none, false, none, none, false, 4⟩

/-- C10.  `findIdxInOld(node, oldCh, start, end)` scans `start ≤ i <
end`, never considering the old child at index `end`: any hit lies
strictly below `end`, and when no defined slot strictly below `end`
matches, the lookup misses.  Consequently, in the concrete run where the
unkeyed new-start node's only logical match in the unconsumed old range
sits exactly at the old-end index, the lookup returns `undefined` and
`updateChildren` creates a fresh node instead of reusing that old
node. -/
theorem findIdxInOld_excludes_end :
    (∀ (node : VNode) (oldCh : List (Option VNode)) (start e i : Int),
      findIdxInOld node oldCh start e = some i → start ≤ i ∧ i < e) ∧
    (∀ (node : VNode) (oldCh : List (Option VNode)) (start e : Int),
      (∀ i, start ≤ i → i < e → ∀ c, nthO oldCh i = some c →
        sameVnode node c = false) →
      findIdxInOld node oldCh start e = none) ∧
    (sameVnode c10NewStart c10OldEnd = true ∧
      findIdxInOld c10NewStart [some c10OldStart, some c10OldEnd] 0 1
        = none ∧
      updateChildren [c10OldStart, c10OldEnd] [c10NewStart, c10NewEnd]
        = [.fallbackCreate, .fallbackCreate, .removeRemaining 2]) := by
  have key : ∀ (node : VNode) (oldCh : List (Option VNode))
      (start e i : Int), findIdxInOld node oldCh start e = some i →
      start ≤ i ∧ i < e ∧ ∃ c, nthO oldCh i = some c ∧
        sameVnode node c = true := by
    intro node oldCh start e i h
    unfold findIdxInOld at h
    obtain ⟨j, hj0, hfj⟩ := List.exists_of_findSome?_eq_some h
    have hj : j < (e - start).toNat := List.mem_range.mp hj0
    revert hfj
    cases hc : nthO oldCh (start + j) with
    | none =>
      intro hfj
      exact absurd hfj (by simp)
    | some c =>
      intro hfj
      have hfj2 : (if sameVnode node c = true then some (start + (j : Int))
          else none) = some i := hfj
      by_cases hs : sameVnode node c
      · rw [if_pos hs] at hfj2
        have hi : i = start + (j : Int) := (Option.some.inj hfj2).symm
        subst hi
        refine ⟨by omega, by omega, c, hc, hs⟩
      · rw [if_neg hs] at hfj2
        exact absurd hfj2 (by simp)
  refine ⟨fun node oldCh start e i h => ⟨(key node oldCh start e i h).1,
    (key node oldCh start e i h).2.1⟩, ?_, by decide⟩
  intro node oldCh start e hno
  cases hfind : findIdxInOld node oldCh start e with
  | none => rfl
  | some i =>
    obtain ⟨h1, h2, c, hc, hs⟩ := key node oldCh start e i hfind
    exact absurd hs (by rw [hno i h1 h2 c hc]; simp)

/-- Witness for C10: a successful lookup with the range extended to
include index 1 lands at index 1 and satisfies the bounds, while the
actual call (exclusive bound 1) misses. -/
theorem findIdxInOld_excludes_end_witness :
    ((0 : Int) ≤ 1 ∧ (1 : Int) < 2) ∧
    findIdxInOld c10NewStart [some c10OldStart, some c10OldEnd] 0 1
      = none := by
  constructor
  · exact findIdxInOld_excludes_end.1 c10NewStart
      [some c10OldStart, some c10OldEnd] 0 2 1 (by decide)
  · refine findIdxInOld_excludes_end.2.1 c10NewStart
      [some c10OldStart, some c10OldEnd] 0 1 ?_
    intro i h1 h2 c hc
    have hi : i = 0 := by omega
    subst hi
    have hc0 : nthO [some c10OldStart, some c10OldEnd] 0
        = some c10OldStart := by decide
    rw [hc0] at hc
    have hcc : c = c10OldStart := (Option.some.inj hc).symm
    subst hcc
    decide

end Vue2

namespace Vue2

/-! ### C4 sanity examples -/

example :
    reactiveSetter ⟨JVal.num 3, none, false, false, [some 1, none, some 2]⟩
        (JVal.num 3) =
      (⟨JVal.num 3, none, false, false, [some 1, none, some 2]⟩,
        ⟨0, false, false, none, []⟩) := by decide

example :
    reactiveSetter ⟨JVal.num 3, none, false, false, [some 1, none, some 2]⟩
        (JVal.num 4) =
      (⟨JVal.num 4, none, false, false, [some 1, none, some 2]⟩,
        ⟨1, true, false, none, [1, 2]⟩) := by decide

example : reactiveSetter ⟨JVal.nan, none, false, false, [some 5]⟩ JVal.nan =
    (⟨JVal.nan, none, false, false, [some 5]⟩,
      ⟨0, false, false, none, []⟩) := by decide

example :
    reactiveSetter ⟨JVal.num 0, none, true, false, [some 4]⟩ (JVal.num 9) =
      (⟨JVal.num 0, none, true, false, [some 4]⟩,
        ⟨1, true, true, none, [4]⟩) := by decide

end Vue2

namespace Vue2

/-! ### C8: array method interception (`src/core/observer/array.ts`)

The seven methods of `methodsToPatch` are wrapped by the closure `mutator`:
it first runs the cached native method (`original.apply(this, args)`), then
computes `inserted` by a switch on the method name (`args` for push/unshift,
`args.slice(2)` for splice, nothing otherwise), calls
`ob.observeArray(inserted)` when inserted is set, calls `ob.dep.notify()`
once, and returns the native result.  The native array builtins themselves
are engine code outside the repository; they are modelled below by their
ECMAScript semantics (for `sort`, whose default comparator is
engine-level string comparison, a deterministic total order on the model
values stands in for it — the interceptor treats the native result
opaquely, so the claim does not depend on the particular order). -/

/-- Return value of a native array method: a single value (push/pop/shift/
unshift return a length or an element) or an array (splice returns the
removed elements, sort/reverse return the array itself). -/
inductive MutRet : Type where
  | val (v : JVal)
  | list (l : List JVal)
  deriving DecidableEq, Repr

/-- The seven intercepted methods of `methodsToPatch`, with their call
arguments.  For `splice` the JS argument list is `start :: delCount ::
items`, so `args.slice(2)` is exactly `items`. -/
inductive ArrayOp : Type where
  | push (args : List JVal)
  | pop
  | shift
  | unshift (args : List JVal)
  | splice (start delCount : Int) (items : List JVal)
  | sort
  | reverse
  deriving DecidableEq, Repr

/-- The `switch (method)` block of `mutator`: `inserted` is `args` for
push/unshift, `args.slice(2)` (the items) for splice, and stays
`undefined` for the other four methods. -/
def insertedOf : ArrayOp → Option (List JVal)
  | .push args => some args
  | .unshift args => some args
  | .splice _ _ items => some items
  | _ => none

/-- Rank giving the model values a total order for the native sort. -/
def jRank : JVal → Nat
  | .num _ => 0
  | .nan => 1
  | .str _ => 2
  | .bool _ => 3
  | .undef => 4
  | .obj _ => 5
  | .ref _ => 6

/-- Total order standing in for the engine's default sort comparator. -/
def jleB : JVal → JVal → Bool
  | .num a, .num b => a ≤ b
  | .obj a, .obj b => a ≤ b
  | a, b => jRank a ≤ jRank b

def jInsert (x : JVal) : List JVal → List JVal
  | [] => [x]
  | y :: ys => if jleB x y then x :: y :: ys else y :: jInsert x ys

/-- Deterministic model of the native in-place sort. -/
def sortJVals : List JVal → List JVal
  | [] => []
  | x :: xs => jInsert x (sortJVals xs)

/-- ECMAScript clamping of the splice start index: a negative start counts
from the end (clamped at 0), a non-negative start is clamped to the
length. -/
def spliceStart (len : Nat) (start : Int) : Nat :=
  if start < 0 then (max ((len : Int) + start) 0).toNat
  else min start.toNat len

/-- The cached native methods (`const original = arrayProto[method]`),
modelled by their ECMAScript semantics: post-state of the array paired
with the method's return value. -/
def nativeRun : ArrayOp → List JVal → List JVal × MutRet
  | .push args, arr =>
      (arr ++ args, .val (.num ((arr.length + args.length : Nat) : Int)))
  | .pop, arr => (arr.dropLast, .val ((arr.getLast?).getD .undef))
  | .shift, arr => (arr.tail, .val ((arr.head?).getD .undef))
  | .unshift args, arr =>
      (args ++ arr, .val (.num ((args.length + arr.length : Nat) : Int)))
  | .splice start delCount items, arr =>
      let s := spliceStart arr.length start
      let d := min (max delCount 0).toNat (arr.length - s)
      (arr.take s ++ items ++ arr.drop (s + d), .list ((arr.drop s).take d))
  | .sort, arr => (sortJVals arr, .list (sortJVals arr))
  | .reverse, arr => (arr.reverse, .list arr.reverse)

/-- An observed array together with its Observer bookkeeping: the values
that have been passed to `observe` (via `observeArray`) and how many times
`ob.dep.notify()` has fired. -/
structure ObArray where
  arr : List JVal
  observed : List JVal
  notifyCount : Nat
  deriving DecidableEq, Repr

/-- `Observer.observeArray`: calls `observe(value[i])` on every item in
order. -/
def observeArray (s : ObArray) (items : List JVal) : ObArray :=
  { s with observed := s.observed ++ items }

/-- The interceptor `mutator` installed on `arrayMethods`: run the native
method, observe the inserted items if any, notify the dep once, return
the native result. -/
def mutator (op : ArrayOp) (s : ObArray) : ObArray × MutRet :=
  let result := nativeRun op s.arr
  let s1 := { s with arr := result.1 }
  let s2 := match insertedOf op with
    | some ins => observeArray s1 ins
    | none => s1
  ({ s2 with notifyCount := s2.notifyCount + 1 }, result.2)

/-- C8: for each of the seven intercepted array methods the interceptor
returns the native operation's result unchanged, leaves the array exactly
in the native post-state, makes the Observer dep notify exactly once per
invocation, and passes exactly the newly inserted elements to observe:
the arguments of push/unshift, the items after the first two splice
arguments, and nothing for pop/shift/sort/reverse. -/
theorem arrayMutator_spec (op : ArrayOp) (s : ObArray) :
    ((mutator op s).1.notifyCount = s.notifyCount + 1) ∧
    ((mutator op s).2 = (nativeRun op s.arr).2) ∧
    ((mutator op s).1.arr = (nativeRun op s.arr).1) ∧
    ((mutator op s).1.observed = s.observed ++
      match op with
      | .push args => args
      | .unshift args => args
      | .splice _ _ items => items
      | _ => []) := by
  cases op <;> simp [mutator, insertedOf, observeArray]

end Vue2

namespace Vue2

/-! ### C8 sanity examples -/

example :
    mutator (.splice 1 1 [JVal.num 9])
        ⟨[JVal.num 1, JVal.num 2, JVal.num 3], [], 0⟩ =
      (⟨[JVal.num 1, JVal.num 9, JVal.num 3], [JVal.num 9], 1⟩,
        .list [JVal.num 2]) := by decide

example :
    mutator (.push [JVal.str "x"]) ⟨[JVal.num 1], [], 2⟩ =
      (⟨[JVal.num 1, JVal.str "x"], [JVal.str "x"], 3⟩,
        .val (.num 2)) := by decide

example :
    mutator .pop ⟨[JVal.num 1, JVal.num 2], [], 0⟩ =
      (⟨[JVal.num 1], [], 1⟩, .val (.num 2)) := by decide

example :
    mutator .reverse ⟨[JVal.num 1, JVal.num 2], [], 0⟩ =
      (⟨[JVal.num 2, JVal.num 1], [], 1⟩,
        .list [JVal.num 2, JVal.num 1]) := by decide

end Vue2
